import Mathlib

/-
  Verification of the chess rules engine (chessLogic / moveValidator / GameContext).

  The embedding translates the TypeScript source directly:
  * `Board` is a total function from integer coordinates into an optional piece;
    every access the source makes through `board[r][c]` is routed through
    `getSq`, which yields `none` outside the 8×8 range, matching the guarded
    accesses of the source (all unguarded accesses in the source occur at
    in-range coordinates).
  * Cloning a board (`cloneBoard`) is the identity in this pure embedding.
  * The source's non-null assertions in `applyMove` are modelled by returning
    `none` from `applyMove` when the asserted lookup fails.
  * The unbounded `while (isInBounds …)` sliding loops are modelled with a
    fuel of 8: from any in-bounds square a ray leaves the board after at most
    8 unit steps, so the fuel is never exhausted before the loop's own exit.
-/

inductive PieceType where
  | king | queen | rook | bishop | knight | pawn
deriving DecidableEq

inductive PieceColor where
  | white | black
deriving DecidableEq

structure ChessPiece where
  type : PieceType
  color : PieceColor
  hasMoved : Bool
deriving DecidableEq

structure Position where
  row : Int
  col : Int
deriving DecidableEq

/-- An 8×8 grid of optional pieces; coordinates outside [0,7] read as empty. -/
def Board := Int → Int → Option ChessPiece

structure MoveResult where
  newBoard : Board
  capturedPiece : Option ChessPiece
  isPromotion : Bool
  isCastling : Bool
  isEnPassant : Bool

structure GameStatus where
  isCheck : Bool
  isCheckmate : Bool
  isStalemate : Bool
deriving DecidableEq

/-- `row >= 0 && row <= 7 && col >= 0 && col <= 7`. -/
def isInBounds (row col : Int) : Bool :=
  decide (0 ≤ row ∧ row ≤ 7 ∧ 0 ≤ col ∧ col ≤ 7)

/-- Read a board square; out-of-range coordinates read as empty. -/
def getSq (b : Board) (row col : Int) : Option ChessPiece :=
  if isInBounds row col = true then b row col else none

/-- Write a board square (used for the scratch-board updates of the source). -/
def setSq (b : Board) (row col : Int) (v : Option ChessPiece) : Board :=
  fun i j => if i = row ∧ j = col then v else b i j

def positionsEqual (a b : Position) : Bool :=
  decide (a.row = b.row) && decide (a.col = b.col)

/-- `color === "white" ? "black" : "white"`. -/
def opp (c : PieceColor) : PieceColor :=
  match c with
  | PieceColor.white => PieceColor.black
  | PieceColor.black => PieceColor.white

-- ─── Raw move generation (ignores check) ───

/-- `const dir = color === "white" ? -1 : 1`. -/
def pawnDir (color : PieceColor) : Int :=
  if color = PieceColor.white then -1 else 1

/-- `const startRow = color === "white" ? 6 : 1`. -/
def pawnStartRow (color : PieceColor) : Int :=
  if color = PieceColor.white then 6 else 1

/-- The forward pushes of a pawn (one step; two steps from the start row). -/
def pawnForward (b : Board) (pos : Position) (color : PieceColor) : List Position :=
  if isInBounds (pos.row + pawnDir color) pos.col = true ∧
      getSq b (pos.row + pawnDir color) pos.col = none then
    Position.mk (pos.row + pawnDir color) pos.col ::
      (if pos.row = pawnStartRow color ∧
          getSq b (pos.row + 2 * pawnDir color) pos.col = none then
        [Position.mk (pos.row + 2 * pawnDir color) pos.col]
      else [])
  else []

/-- One diagonal of a pawn: capture push, then en-passant push. -/
def pawnDiag (b : Board) (pos : Position) (color : PieceColor)
    (ept : Option Position) (dc : Int) : List Position :=
  if isInBounds (pos.row + pawnDir color) (pos.col + dc) = true then
    (match getSq b (pos.row + pawnDir color) (pos.col + dc) with
      | some target =>
          if target.color ≠ color then
            [Position.mk (pos.row + pawnDir color) (pos.col + dc)]
          else []
      | none => []) ++
    (match ept with
      | some e =>
          if e.row = pos.row + pawnDir color ∧ e.col = pos.col + dc then
            [Position.mk (pos.row + pawnDir color) (pos.col + dc)]
          else []
      | none => [])
  else []

def getPawnMoves (b : Board) (pos : Position) (color : PieceColor)
    (ept : Option Position) : List Position :=
  pawnForward b pos color ++ pawnDiag b pos color ept (-1) ++ pawnDiag b pos color ept 1

/-- One sliding ray: walk from (row,col) in direction (dr,dc) while in bounds,
through empty squares, stopping after an enemy square. Fuel 8 is enough. -/
def slide (b : Board) (color : PieceColor) (dr dc : Int) :
    Int → Int → Nat → List Position
  | _, _, 0 => []
  | row, col, fuel + 1 =>
    if isInBounds row col = true then
      match getSq b row col with
      | none => Position.mk row col :: slide b color dr dc (row + dr) (col + dc) fuel
      | some target =>
          if target.color ≠ color then [Position.mk row col] else []
    else []

def rookDirs : List (Int × Int) := [(-1, 0), (1, 0), (0, -1), (0, 1)]

def bishopDirs : List (Int × Int) := [(-1, -1), (-1, 1), (1, -1), (1, 1)]

def getRookMoves (b : Board) (pos : Position) (color : PieceColor) : List Position :=
  rookDirs.flatMap (fun d => slide b color d.1 d.2 (pos.row + d.1) (pos.col + d.2) 8)

def getBishopMoves (b : Board) (pos : Position) (color : PieceColor) : List Position :=
  bishopDirs.flatMap (fun d => slide b color d.1 d.2 (pos.row + d.1) (pos.col + d.2) 8)

/-- Single-step moves over a fixed offset list (knight offsets, king ring). -/
def stepMoves (b : Board) (pos : Position) (color : PieceColor)
    (offsets : List (Int × Int)) : List Position :=
  offsets.flatMap (fun o =>
    let r := pos.row + o.1
    let c := pos.col + o.2
    if isInBounds r c = true then
      match getSq b r c with
      | none => [Position.mk r c]
      | some target => if target.color ≠ color then [Position.mk r c] else []
    else [])

def knightOffsets : List (Int × Int) :=
  [(-2, -1), (-2, 1), (-1, -2), (-1, 2), (1, -2), (1, 2), (2, -1), (2, 1)]

/-- The king ring in the source's loop order (dr outer, dc inner, skip (0,0)). -/
def kingOffsets : List (Int × Int) :=
  [(-1, -1), (-1, 0), (-1, 1), (0, -1), (0, 1), (1, -1), (1, 0), (1, 1)]

def getKnightMoves (b : Board) (pos : Position) (color : PieceColor) : List Position :=
  stepMoves b pos color knightOffsets

def getQueenMoves (b : Board) (pos : Position) (color : PieceColor) : List Position :=
  getRookMoves b pos color ++ getBishopMoves b pos color

def getKingMovesRaw (b : Board) (pos : Position) (color : PieceColor) : List Position :=
  stepMoves b pos color kingOffsets

def getRawMoves (b : Board) (pos : Position) (ept : Option Position) : List Position :=
  match getSq b pos.row pos.col with
  | none => []
  | some piece =>
    match piece.type with
    | PieceType.pawn => getPawnMoves b pos piece.color ept
    | PieceType.rook => getRookMoves b pos piece.color
    | PieceType.bishop => getBishopMoves b pos piece.color
    | PieceType.knight => getKnightMoves b pos piece.color
    | PieceType.queen => getQueenMoves b pos piece.color
    | PieceType.king => getKingMovesRaw b pos piece.color

-- ─── Check detection ───

/-- The 64 squares in the source's scan order (row outer, column inner). -/
def squaresList : List (Int × Int) :=
  (List.range 8).flatMap (fun r => (List.range 8).map (fun c => ((r : Int), (c : Int))))

def findKing (b : Board) (color : PieceColor) : Option Position :=
  (squaresList.find? (fun rc =>
    match getSq b rc.1 rc.2 with
    | some piece => decide (piece.type = PieceType.king ∧ piece.color = color)
    | none => false)).map (fun rc => Position.mk rc.1 rc.2)

def isSquareAttacked (b : Board) (pos : Position) (byColor : PieceColor) : Bool :=
  squaresList.any (fun rc =>
    match getSq b rc.1 rc.2 with
    | some piece =>
        if piece.color = byColor then
          (getRawMoves b (Position.mk rc.1 rc.2) none).any
            (fun m => positionsEqual m pos)
        else false
    | none => false)

def isInCheck (b : Board) (color : PieceColor) : Bool :=
  match findKing b color with
  | none => false
  | some kingPos => isSquareAttacked b kingPos (opp color)

-- ─── Castling ───

def getCastlingMoves (b : Board) (pos : Position) (color : PieceColor) : List Position :=
  match getSq b pos.row pos.col with
  | none => []
  | some king =>
    if king.hasMoved = true then []
    else
      let opponent := opp color
      let row : Int := if color = PieceColor.white then 7 else 0
      if pos.row ≠ row ∨ pos.col ≠ 4 then []
      else
        let kingside : List Position :=
          match getSq b row 7 with
          | some kRook =>
            if kRook.type = PieceType.rook ∧ kRook.hasMoved = false ∧
               getSq b row 5 = none ∧ getSq b row 6 = none ∧
               isSquareAttacked b (Position.mk row 4) opponent = false ∧
               isSquareAttacked b (Position.mk row 5) opponent = false ∧
               isSquareAttacked b (Position.mk row 6) opponent = false then
              [Position.mk row 6]
            else []
          | none => []
        let queenside : List Position :=
          match getSq b row 0 with
          | some qRook =>
            if qRook.type = PieceType.rook ∧ qRook.hasMoved = false ∧
               getSq b row 1 = none ∧ getSq b row 2 = none ∧ getSq b row 3 = none ∧
               isSquareAttacked b (Position.mk row 4) opponent = false ∧
               isSquareAttacked b (Position.mk row 3) opponent = false ∧
               isSquareAttacked b (Position.mk row 2) opponent = false then
              [Position.mk row 2]
            else []
          | none => []
        kingside ++ queenside

-- ─── Legal move generation ───

/-- `piece.type === "pawn" && enPassantTarget && positionsEqual(toP, enPassantTarget)`. -/
def isEpCapture (piece : ChessPiece) (toP : Position) (ept : Option Position) : Bool :=
  if piece.type = PieceType.pawn then
    match ept with
    | some e => positionsEqual toP e
    | none => false
  else false

/-- The scratch board built by the legal-move filter for one candidate. -/
def simBoard (b : Board) (pos toP : Position) (piece : ChessPiece)
    (ept : Option Position) : Board :=
  let b1 := setSq b toP.row toP.col (some { piece with hasMoved := true })
  let b2 := setSq b1 pos.row pos.col none
  if isEpCapture piece toP ept = true then setSq b2 pos.row toP.col none else b2

def getLegalMoves (b : Board) (pos : Position) (ept : Option Position) : List Position :=
  match getSq b pos.row pos.col with
  | none => []
  | some piece =>
    let candidates :=
      getRawMoves b pos ept ++
        (if piece.type = PieceType.king then getCastlingMoves b pos piece.color else [])
    candidates.filter (fun toP => !(isInCheck (simBoard b pos toP piece ept) piece.color))

-- ─── Apply move ───

def applyMove (b : Board) (fm toP : Position) (ept : Option Position) : Option MoveResult :=
  match getSq b fm.row fm.col with
  | none => none
  | some piece =>
    let ep := isEpCapture piece toP ept
    let captured : Option ChessPiece :=
      if ep = true then getSq b fm.row toP.col else getSq b toP.row toP.col
    let b1 : Board := if ep = true then setSq b fm.row toP.col none else b
    let colDiff := toP.col - fm.col
    let promo : Bool := decide (piece.type = PieceType.pawn ∧ (toP.row = 0 ∨ toP.row = 7))
    if piece.type = PieceType.king ∧ (colDiff = 2 ∨ colDiff = -2) then
      let rookFromCol : Int := if colDiff > 0 then 7 else 0
      let rookToCol : Int := if colDiff > 0 then 5 else 3
      match getSq b1 fm.row rookFromCol with
      | none => none
      | some rook =>
        let b2 := setSq (setSq b1 fm.row rookToCol (some { rook with hasMoved := true }))
          fm.row rookFromCol none
        let b3 := setSq (setSq b2 toP.row toP.col (some { piece with hasMoved := true }))
          fm.row fm.col none
        some { newBoard := b3, capturedPiece := captured, isPromotion := promo,
               isCastling := true, isEnPassant := ep }
    else
      let b3 := setSq (setSq b1 toP.row toP.col (some { piece with hasMoved := true }))
        fm.row fm.col none
      some { newBoard := b3, capturedPiece := captured, isPromotion := promo,
             isCastling := false, isEnPassant := ep }

-- ─── Game status ───

def hasAnyLegalMoves (b : Board) (color : PieceColor) (ept : Option Position) : Bool :=
  squaresList.any (fun rc =>
    match getSq b rc.1 rc.2 with
    | some piece =>
        if piece.color = color then
          !(getLegalMoves b (Position.mk rc.1 rc.2) ept).isEmpty
        else false
    | none => false)

def getGameStatus (b : Board) (currentTurn : PieceColor) (ept : Option Position) :
    GameStatus :=
  let inCheck := isInCheck b currentTurn
  let hasLegal := hasAnyLegalMoves b currentTurn ept
  { isCheck := inCheck
    isCheckmate := inCheck && !hasLegal
    isStalemate := !inCheck && !hasLegal }

-- ─── moveValidator helpers ───

def computeEnPassantTarget (b : Board) (fm toP : Position) : Option Position :=
  match getSq b fm.row fm.col with
  | none => none
  | some piece =>
    if piece.type ≠ PieceType.pawn then none
    else
      let rowDiff := (toP.row - fm.row).natAbs
      if rowDiff ≠ 2 then none
      else some (Position.mk ((fm.row + toP.row) / 2) fm.col)

-- ─── Promotion completion (GameContext.promotePawn board update) ───

/-- The board update performed by `promotePawn`: the square of the pending
promotion receives a new piece of the supplied kind with `hasMoved = true`,
with no validation of the supplied kind. -/
def promotePawnBoard (board : Board) (position : Position) (color : PieceColor)
    (pieceType : PieceType) : Board :=
  setSq board position.row position.col
    (some { type := pieceType, color := color, hasMoved := true })

-- ─── Concrete boards used by witnesses and counterexamples ───

def boardEmpty : Board := fun _ _ => none

/-- White pawn on e2 (6,4), nothing else. -/
def boardPawnE2 : Board := fun r c =>
  if r = 6 ∧ c = 4 then some ⟨PieceType.pawn, PieceColor.white, false⟩ else none

/-- White king e1 (unmoved), white rook h1 (unmoved), black rook f3 attacking f1. -/
def boardC2 : Board := fun r c =>
  if r = 7 ∧ c = 4 then some ⟨PieceType.king, PieceColor.white, false⟩
  else if r = 7 ∧ c = 7 then some ⟨PieceType.rook, PieceColor.white, false⟩
  else if r = 5 ∧ c = 5 then some ⟨PieceType.rook, PieceColor.black, false⟩
  else none

/-- White pawn (4,4), black pawn (4,5): a degenerate same-row en-passant target. -/
def boardC3cex : Board := fun r c =>
  if r = 4 ∧ c = 4 then some ⟨PieceType.pawn, PieceColor.white, true⟩
  else if r = 4 ∧ c = 5 then some ⟨PieceType.pawn, PieceColor.black, true⟩
  else none

/-- White pawn (3,4), black pawn (3,5): a genuine en-passant configuration. -/
def boardC3wit : Board := fun r c =>
  if r = 3 ∧ c = 4 then some ⟨PieceType.pawn, PieceColor.white, true⟩
  else if r = 3 ∧ c = 5 then some ⟨PieceType.pawn, PieceColor.black, true⟩
  else none

/-- A white pawn standing on its promotion square (0,4). -/
def boardC6 : Board := fun r c =>
  if r = 0 ∧ c = 4 then some ⟨PieceType.pawn, PieceColor.white, false⟩ else none

/-- White pawn (4,4), black pawn (3,5): capture and en-passant target coincide. -/
def boardC7cex : Board := fun r c =>
  if r = 4 ∧ c = 4 then some ⟨PieceType.pawn, PieceColor.white, true⟩
  else if r = 3 ∧ c = 5 then some ⟨PieceType.pawn, PieceColor.black, true⟩
  else none

/-- White king e1 (unmoved), white rook h1 (unmoved), black king e8. -/
def boardCastle : Board := fun r c =>
  if r = 7 ∧ c = 4 then some ⟨PieceType.king, PieceColor.white, false⟩
  else if r = 7 ∧ c = 7 then some ⟨PieceType.rook, PieceColor.white, false⟩
  else if r = 0 ∧ c = 4 then some ⟨PieceType.king, PieceColor.black, false⟩
  else none

-- ─── Basic facts ───

theorem isInBounds_iff {r c : Int} :
    isInBounds r c = true ↔ 0 ≤ r ∧ r ≤ 7 ∧ 0 ≤ c ∧ c ≤ 7 := by
  simp [isInBounds]

theorem getSq_isInBounds {b : Board} {r c : Int} {p : ChessPiece}
    (h : getSq b r c = some p) : isInBounds r c = true := by
  unfold getSq at h
  by_cases hb : isInBounds r c = true
  · exact hb
  · simp [hb] at h

theorem mem_squaresList {r c : Int} (h0 : 0 ≤ r) (h1 : r ≤ 7) (h2 : 0 ≤ c)
    (h3 : c ≤ 7) : (r, c) ∈ squaresList := by
  interval_cases r <;> interval_cases c <;> decide

-- ─── C10: computeEnPassantTarget ───

/-- C10: for a pawn at `fm` and any `toP` two rows away, `computeEnPassantTarget`
returns the square halfway between the rows on the pawn's column, with no check
that the move is a legal double-step; in every other case (no piece, non-pawn,
or row difference not 2) it returns `none`. -/
theorem computeEnPassantTarget_spec (b : Board) (fm toP : Position) :
    (∀ piece, getSq b fm.row fm.col = some piece → piece.type = PieceType.pawn →
      (toP.row - fm.row).natAbs = 2 →
      computeEnPassantTarget b fm toP
        = some (Position.mk ((fm.row + toP.row) / 2) fm.col)) ∧
    (getSq b fm.row fm.col = none → computeEnPassantTarget b fm toP = none) ∧
    (∀ piece, getSq b fm.row fm.col = some piece →
      (piece.type ≠ PieceType.pawn ∨ (toP.row - fm.row).natAbs ≠ 2) →
      computeEnPassantTarget b fm toP = none) := by
  refine ⟨?_, ?_, ?_⟩
  · intro piece hp hpt hdiff
    unfold computeEnPassantTarget
    rw [hp]
    simp [hpt, hdiff]
  · intro h
    unfold computeEnPassantTarget
    rw [h]
  · intro piece hp hcase
    unfold computeEnPassantTarget
    rw [hp]
    by_cases ht : piece.type = PieceType.pawn
    · rcases hcase with h | h
      · exact absurd ht h
      · simp [ht, h]
    · simp [ht]

/-- Witness for C10 at a concrete double-step. -/
theorem computeEnPassantTarget_spec_witness :
    getSq boardPawnE2 6 4 = some ⟨PieceType.pawn, PieceColor.white, false⟩ ∧
    computeEnPassantTarget boardPawnE2 (Position.mk 6 4) (Position.mk 4 4)
      = some (Position.mk 5 4) :=
  ⟨by decide,
    (computeEnPassantTarget_spec boardPawnE2 (Position.mk 6 4) (Position.mk 4 4)).1
      ⟨PieceType.pawn, PieceColor.white, false⟩ (by decide) rfl (by decide)⟩

-- ─── C4: game status classification ───

/-- C4: `getGameStatus` never reports checkmate and stalemate together;
checkmate is exactly check with no legal move, stalemate exactly no check
with no legal move. -/
theorem getGameStatus_mate_stalemate_exclusive (b : Board) (color : PieceColor)
    (ept : Option Position) :
    ((getGameStatus b color ept).isCheckmate
        && (getGameStatus b color ept).isStalemate) = false ∧
    (getGameStatus b color ept).isCheckmate
      = (isInCheck b color && !(hasAnyLegalMoves b color ept)) ∧
    (getGameStatus b color ept).isStalemate
      = (!(isInCheck b color) && !(hasAnyLegalMoves b color ept)) := by
  refine ⟨?_, rfl, rfl⟩
  show ((isInCheck b color && !(hasAnyLegalMoves b color ept))
      && (!(isInCheck b color) && !(hasAnyLegalMoves b color ept))) = false
  cases isInCheck b color <;> simp

-- ─── C5: missing king ───

/-- C5 counterexample: on a board with no white king, `isInCheck` returns the
ordinary boolean `false`; no failure of any kind occurs (the source has no
error path: `if (!kingPos) return false`). -/
theorem isInCheck_missingKing_cex :
    findKing boardEmpty PieceColor.white = none ∧
    isInCheck boardEmpty PieceColor.white = false := by decide

/-- C5 amended: whenever the queried color has no king on the board,
`isInCheck` returns `false` rather than failing. -/
theorem isInCheck_missingKing_returns_false (b : Board) (color : PieceColor)
    (h : findKing b color = none) : isInCheck b color = false := by
  unfold isInCheck
  rw [h]

/-- Witness for the amended C5. -/
theorem isInCheck_missingKing_returns_false_witness :
    findKing boardEmpty PieceColor.black = none ∧
    isInCheck boardEmpty PieceColor.black = false :=
  ⟨by decide, isInCheck_missingKing_returns_false boardEmpty PieceColor.black (by decide)⟩

-- ─── C6: promotion completion does not reject king/pawn ───

/-- C6: the promotion completion step accepts the invalid kinds `king` and
`pawn`: the pawn on the promotion square is replaced (board changed), instead
of the rejection the specification requires. -/
theorem promotePawn_accepts_invalid_kinds :
    getSq boardC6 0 4 = some ⟨PieceType.pawn, PieceColor.white, false⟩ ∧
    getSq (promotePawnBoard boardC6 (Position.mk 0 4) PieceColor.white
        PieceType.king) 0 4
      = some ⟨PieceType.king, PieceColor.white, true⟩ ∧
    getSq (promotePawnBoard boardC6 (Position.mk 0 4) PieceColor.white
        PieceType.pawn) 0 4
      = some ⟨PieceType.pawn, PieceColor.white, true⟩ := by decide

-- ─── applyMove characterizations ───

theorem getSq_setSq (b : Board) (r c : Int) (v : Option ChessPiece) (i j : Int) :
    getSq (setSq b r c v) i j
      = if i = r ∧ j = c then (if isInBounds i j = true then v else none)
        else getSq b i j := by
  unfold getSq setSq
  by_cases h : i = r ∧ j = c <;> by_cases hb : isInBounds i j = true <;>
    simp [h, hb]

theorem applyMove_eq_noCastle_noEp (b : Board) (fm toP : Position)
    (ept : Option Position) (piece : ChessPiece)
    (hp : getSq b fm.row fm.col = some piece)
    (hnep : isEpCapture piece toP ept = false)
    (hk : ¬(piece.type = PieceType.king ∧ (toP.col - fm.col = 2 ∨ toP.col - fm.col = -2))) :
    applyMove b fm toP ept = some
      { newBoard := setSq (setSq b toP.row toP.col (some { piece with hasMoved := true }))
          fm.row fm.col none
        capturedPiece := getSq b toP.row toP.col
        isPromotion := decide (piece.type = PieceType.pawn ∧ (toP.row = 0 ∨ toP.row = 7))
        isCastling := false
        isEnPassant := false } := by
  unfold applyMove
  rw [hp]
  simp only [hnep, hk, if_false, Bool.false_eq_true, ite_false]

theorem applyMove_eq_noCastle_ep (b : Board) (fm toP : Position)
    (ept : Option Position) (piece : ChessPiece)
    (hp : getSq b fm.row fm.col = some piece)
    (hep : isEpCapture piece toP ept = true)
    (hk : ¬(piece.type = PieceType.king ∧ (toP.col - fm.col = 2 ∨ toP.col - fm.col = -2))) :
    applyMove b fm toP ept = some
      { newBoard := setSq (setSq (setSq b fm.row toP.col none)
          toP.row toP.col (some { piece with hasMoved := true })) fm.row fm.col none
        capturedPiece := getSq b fm.row toP.col
        isPromotion := decide (piece.type = PieceType.pawn ∧ (toP.row = 0 ∨ toP.row = 7))
        isCastling := false
        isEnPassant := true } := by
  unfold applyMove
  rw [hp]
  simp only [hep, hk, if_false, if_true, ite_true, ite_false]

-- ─── C3: en-passant application ───

/-- C3 counterexample: with the degenerate en-passant target (4,5) on the
pawn's own row, `applyMove` reports `isEnPassant = true` and the captured
piece from (from.row, to.col), but that square then receives the moving pawn
itself, so it is not empty in the new board. -/
theorem applyMove_enPassant_cex :
    (applyMove boardC3cex (Position.mk 4 4) (Position.mk 4 5)
        (some (Position.mk 4 5))).map
      (fun res => (res.isEnPassant, res.capturedPiece, getSq res.newBoard 4 5))
      = some (true, some ⟨PieceType.pawn, PieceColor.black, true⟩,
          some ⟨PieceType.pawn, PieceColor.white, true⟩) := by decide

/-- C3 amended: when `applyMove` is called with a pawn at `fm` and `toP` equal
to the en-passant target, the returned `capturedPiece` is the piece that was at
(fm.row, toP.col) and `isEnPassant = true`; the cleared square is empty in the
new board provided `toP.row ≠ fm.row` (true of every actual pawn move). -/
theorem applyMove_enPassant_spec (b : Board) (fm toP e : Position)
    (piece : ChessPiece) (hp : getSq b fm.row fm.col = some piece)
    (hpt : piece.type = PieceType.pawn) (hte : positionsEqual toP e = true) :
    ∃ res, applyMove b fm toP (some e) = some res ∧
      res.capturedPiece = getSq b fm.row toP.col ∧
      res.isEnPassant = true ∧
      (toP.row ≠ fm.row → getSq res.newBoard fm.row toP.col = none) := by
  have hep : isEpCapture piece toP (some e) = true := by
    unfold isEpCapture
    simp [hpt, hte]
  have hk : ¬(piece.type = PieceType.king ∧
      (toP.col - fm.col = 2 ∨ toP.col - fm.col = -2)) := by
    rintro ⟨h, -⟩
    rw [hpt] at h
    cases h
  refine ⟨_, applyMove_eq_noCastle_ep b fm toP (some e) piece hp hep hk, rfl, rfl, ?_⟩
  intro hrow
  rw [getSq_setSq, getSq_setSq, getSq_setSq]
  by_cases h1 : fm.row = fm.row ∧ toP.col = fm.col
  · simp [h1]
  · have h2 : ¬(fm.row = toP.row ∧ toP.col = toP.col) := by
      rintro ⟨h, -⟩
      exact hrow h.symm
    simp [h1, h2]
    intro _ h
    exact absurd h.symm hrow

/-- Witness for the amended C3 at a genuine en-passant capture. -/
theorem applyMove_enPassant_spec_witness :
    getSq boardC3wit 3 4 = some ⟨PieceType.pawn, PieceColor.white, true⟩ ∧
    (∃ res, applyMove boardC3wit (Position.mk 3 4) (Position.mk 2 5)
        (some (Position.mk 2 5)) = some res ∧
      res.capturedPiece = getSq boardC3wit 3 5 ∧
      res.isEnPassant = true ∧
      ((2 : Int) ≠ 3 → getSq res.newBoard 3 5 = none)) :=
  ⟨by decide,
    applyMove_enPassant_spec boardC3wit (Position.mk 3 4) (Position.mk 2 5)
      (Position.mk 2 5) ⟨PieceType.pawn, PieceColor.white, true⟩
      (by decide) rfl (by decide)⟩


-- ─── Membership characterizations for move generation ───

theorem mem_stepMoves {b : Board} {pos : Position} {color : PieceColor}
    {offsets : List (Int × Int)} {x : Position} :
    x ∈ stepMoves b pos color offsets ↔
      ∃ o ∈ offsets, x = Position.mk (pos.row + o.1) (pos.col + o.2) ∧
        isInBounds (pos.row + o.1) (pos.col + o.2) = true ∧
        (getSq b (pos.row + o.1) (pos.col + o.2) = none ∨
          ∃ t, getSq b (pos.row + o.1) (pos.col + o.2) = some t ∧ t.color ≠ color) := by
  unfold stepMoves
  rw [List.mem_flatMap]
  constructor
  · rintro ⟨o, ho, hx⟩
    refine ⟨o, ho, ?_⟩
    dsimp only at hx
    by_cases hb : isInBounds (pos.row + o.1) (pos.col + o.2) = true
    · rw [if_pos hb] at hx
      cases hg : getSq b (pos.row + o.1) (pos.col + o.2) with
      | none =>
        rw [hg] at hx
        simp only [List.mem_singleton] at hx
        exact ⟨hx, hb, Or.inl rfl⟩
      | some t =>
        rw [hg] at hx
        dsimp only at hx
        by_cases hc : t.color ≠ color
        · rw [if_pos hc] at hx
          simp only [List.mem_singleton] at hx
          exact ⟨hx, hb, Or.inr ⟨t, rfl, hc⟩⟩
        · rw [if_neg hc] at hx
          simp at hx
    · rw [if_neg hb] at hx
      simp at hx
  · rintro ⟨o, ho, hx, hb, hocc⟩
    refine ⟨o, ho, ?_⟩
    dsimp only
    rw [if_pos hb]
    rcases hocc with hg | ⟨t, hg, hc⟩
    · rw [hg]
      simp [hx]
    · rw [hg]
      dsimp only
      rw [if_pos hc]
      simp [hx]

theorem mem_getLegalMoves_iff {b : Board} {pos : Position} {ept : Option Position}
    {piece : ChessPiece} (hp : getSq b pos.row pos.col = some piece) {toP : Position} :
    toP ∈ getLegalMoves b pos ept ↔
      (toP ∈ getRawMoves b pos ept ∨
        (piece.type = PieceType.king ∧ toP ∈ getCastlingMoves b pos piece.color)) ∧
      isInCheck (simBoard b pos toP piece ept) piece.color = false := by
  unfold getLegalMoves
  rw [hp]
  rw [List.mem_filter, List.mem_append]
  constructor
  · rintro ⟨hmem, hchk⟩
    refine ⟨?_, by simpa using hchk⟩
    rcases hmem with h | h
    · exact Or.inl h
    · by_cases hkg : piece.type = PieceType.king
      · exact Or.inr ⟨hkg, by simpa [hkg] using h⟩
      · simp [hkg] at h
  · rintro ⟨hmem, hchk⟩
    refine ⟨?_, by simpa using hchk⟩
    rcases hmem with h | ⟨hkg, h⟩
    · exact Or.inl h
    · exact Or.inr (by simp [hkg, h])

theorem mem_getCastlingMoves {b : Board} {pos : Position} {color : PieceColor}
    {x : Position} (h : x ∈ getCastlingMoves b pos color) :
    ∃ king, getSq b pos.row pos.col = some king ∧ king.hasMoved = false ∧
      pos.row = (if color = PieceColor.white then (7 : Int) else 0) ∧ pos.col = 4 ∧
      ((x = Position.mk pos.row 6 ∧
        ∃ kRook, getSq b pos.row 7 = some kRook ∧ kRook.type = PieceType.rook ∧
          kRook.hasMoved = false ∧ getSq b pos.row 5 = none ∧
          getSq b pos.row 6 = none ∧
          isSquareAttacked b (Position.mk pos.row 4) (opp color) = false ∧
          isSquareAttacked b (Position.mk pos.row 5) (opp color) = false ∧
          isSquareAttacked b (Position.mk pos.row 6) (opp color) = false) ∨
       (x = Position.mk pos.row 2 ∧
        ∃ qRook, getSq b pos.row 0 = some qRook ∧ qRook.type = PieceType.rook ∧
          qRook.hasMoved = false ∧ getSq b pos.row 1 = none ∧
          getSq b pos.row 2 = none ∧ getSq b pos.row 3 = none ∧
          isSquareAttacked b (Position.mk pos.row 4) (opp color) = false ∧
          isSquareAttacked b (Position.mk pos.row 3) (opp color) = false ∧
          isSquareAttacked b (Position.mk pos.row 2) (opp color) = false)) := by
  unfold getCastlingMoves at h
  cases hg : getSq b pos.row pos.col with
  | none =>
    rw [hg] at h
    simp at h
  | some king =>
    rw [hg] at h
    dsimp only at h
    by_cases hm : king.hasMoved = true
    · rw [if_pos hm] at h
      simp at h
    · rw [if_neg hm] at h
      by_cases hpos : pos.row ≠ (if color = PieceColor.white then (7 : Int) else 0) ∨
          pos.col ≠ 4
      · rw [if_pos hpos] at h
        simp at h
      · rw [if_neg hpos] at h
        push_neg at hpos
        obtain ⟨hrow, hcol⟩ := hpos
        refine ⟨king, rfl, by simpa using hm, hrow, hcol, ?_⟩
        rw [List.mem_append] at h
        rcases h with h | h
        · left
          cases hk7 : getSq b (if color = PieceColor.white then (7 : Int) else 0) 7 with
          | none =>
            rw [hk7] at h
            simp at h
          | some kRook =>
            rw [hk7] at h
            dsimp only at h
            by_cases hcond : kRook.type = PieceType.rook ∧ kRook.hasMoved = false ∧
                getSq b (if color = PieceColor.white then (7 : Int) else 0) 5 = none ∧
                getSq b (if color = PieceColor.white then (7 : Int) else 0) 6 = none ∧
                isSquareAttacked b
                  (Position.mk (if color = PieceColor.white then (7 : Int) else 0) 4)
                  (opp color) = false ∧
                isSquareAttacked b
                  (Position.mk (if color = PieceColor.white then (7 : Int) else 0) 5)
                  (opp color) = false ∧
                isSquareAttacked b
                  (Position.mk (if color = PieceColor.white then (7 : Int) else 0) 6)
                  (opp color) = false
            · rw [if_pos hcond] at h
              simp only [List.mem_singleton] at h
              rw [← hrow] at hcond hk7
              exact ⟨by rw [h, hrow], kRook, hk7, hcond.1,
                hcond.2.1, hcond.2.2.1, hcond.2.2.2.1, hcond.2.2.2.2.1,
                hcond.2.2.2.2.2.1, hcond.2.2.2.2.2.2⟩
            · rw [if_neg hcond] at h
              simp at h
        · right
          cases hk0 : getSq b (if color = PieceColor.white then (7 : Int) else 0) 0 with
          | none =>
            rw [hk0] at h
            simp at h
          | some qRook =>
            rw [hk0] at h
            dsimp only at h
            by_cases hcond : qRook.type = PieceType.rook ∧ qRook.hasMoved = false ∧
                getSq b (if color = PieceColor.white then (7 : Int) else 0) 1 = none ∧
                getSq b (if color = PieceColor.white then (7 : Int) else 0) 2 = none ∧
                getSq b (if color = PieceColor.white then (7 : Int) else 0) 3 = none ∧
                isSquareAttacked b
                  (Position.mk (if color = PieceColor.white then (7 : Int) else 0) 4)
                  (opp color) = false ∧
                isSquareAttacked b
                  (Position.mk (if color = PieceColor.white then (7 : Int) else 0) 3)
                  (opp color) = false ∧
                isSquareAttacked b
                  (Position.mk (if color = PieceColor.white then (7 : Int) else 0) 2)
                  (opp color) = false
            · rw [if_pos hcond] at h
              simp only [List.mem_singleton] at h
              rw [← hrow] at hcond hk0
              exact ⟨by rw [h, hrow], qRook, hk0, hcond.1,
                hcond.2.1, hcond.2.2.1, hcond.2.2.2.1, hcond.2.2.2.2.1,
                hcond.2.2.2.2.2.1, hcond.2.2.2.2.2.2.1, hcond.2.2.2.2.2.2.2⟩
            · rw [if_neg hcond] at h
              simp at h

-- ─── C2: castling denied on attacked path ───

/-- C2: with an unmoved white king on (7,4), an unmoved rook on (7,7), (7,5)
and (7,6) empty and (7,5) attacked by black, the kingside castling square
(7,6) is never produced by `getLegalMoves`, while every raw king move (and a
queenside castling move, if offered) that passes the usual self-check filter
is still produced. -/
theorem castling_denied_on_attacked_path (b : Board) (ept : Option Position)
    (hK : getSq b 7 4 = some ⟨PieceType.king, PieceColor.white, false⟩)
    (r : ChessPiece) (hR : getSq b 7 7 = some r) (hRt : r.type = PieceType.rook)
    (hRm : r.hasMoved = false)
    (h5 : getSq b 7 5 = none) (h6 : getSq b 7 6 = none)
    (hAtt : isSquareAttacked b (Position.mk 7 5) PieceColor.black = true) :
    Position.mk 7 6 ∉ getLegalMoves b (Position.mk 7 4) ept ∧
    (∀ m, m ∈ getRawMoves b (Position.mk 7 4) ept →
      isInCheck (simBoard b (Position.mk 7 4) m
        ⟨PieceType.king, PieceColor.white, false⟩ ept) PieceColor.white = false →
      m ∈ getLegalMoves b (Position.mk 7 4) ept) ∧
    (Position.mk 7 2 ∈ getCastlingMoves b (Position.mk 7 4) PieceColor.white →
      isInCheck (simBoard b (Position.mk 7 4) (Position.mk 7 2)
        ⟨PieceType.king, PieceColor.white, false⟩ ept) PieceColor.white = false →
      Position.mk 7 2 ∈ getLegalMoves b (Position.mk 7 4) ept) := by
  have hp : getSq b (Position.mk (7 : Int) (4 : Int)).row
      (Position.mk (7 : Int) (4 : Int)).col
      = some ⟨PieceType.king, PieceColor.white, false⟩ := hK
  refine ⟨?_, ?_, ?_⟩
  · intro hmem
    rw [mem_getLegalMoves_iff hp] at hmem
    obtain ⟨hc, -⟩ := hmem
    rcases hc with hraw | ⟨-, hcast⟩
    · unfold getRawMoves at hraw
      rw [hp] at hraw
      dsimp only at hraw
      unfold getKingMovesRaw at hraw
      rw [mem_stepMoves] at hraw
      obtain ⟨o, ho, heq, -, -⟩ := hraw
      have h1 : (6 : Int) = (Position.mk (7 : Int) (4 : Int)).col + o.2 :=
        congrArg Position.col heq
      unfold kingOffsets at ho
      fin_cases ho <;> simp at h1 <;> omega
    · obtain ⟨king, -, -, -, -, hside⟩ := mem_getCastlingMoves hcast
      rcases hside with ⟨-, kRook, -, -, -, -, -, -, hA5, -⟩ | ⟨heq2, -⟩
      · have hA5' : isSquareAttacked b (Position.mk 7 5) PieceColor.black = false := by
          simpa [opp] using hA5
        rw [hA5'] at hAtt
        simp at hAtt
      · simp [Position.mk.injEq] at heq2
  · intro m hm hok
    rw [mem_getLegalMoves_iff hp]
    exact ⟨Or.inl hm, hok⟩
  · intro hc hok
    rw [mem_getLegalMoves_iff hp]
    exact ⟨Or.inr ⟨rfl, hc⟩, hok⟩

/-- Witness for C2 on a concrete board (black rook on f3 attacks f1). -/
theorem castling_denied_on_attacked_path_witness :
    isSquareAttacked boardC2 (Position.mk 7 5) PieceColor.black = true ∧
    (Position.mk 7 6 ∉ getLegalMoves boardC2 (Position.mk 7 4) none ∧
     (∀ m, m ∈ getRawMoves boardC2 (Position.mk 7 4) none →
       isInCheck (simBoard boardC2 (Position.mk 7 4) m
         ⟨PieceType.king, PieceColor.white, false⟩ none) PieceColor.white = false →
       m ∈ getLegalMoves boardC2 (Position.mk 7 4) none) ∧
     (Position.mk 7 2 ∈ getCastlingMoves boardC2 (Position.mk 7 4) PieceColor.white →
       isInCheck (simBoard boardC2 (Position.mk 7 4) (Position.mk 7 2)
         ⟨PieceType.king, PieceColor.white, false⟩ none) PieceColor.white = false →
       Position.mk 7 2 ∈ getLegalMoves boardC2 (Position.mk 7 4) none)) :=
  ⟨by decide,
    castling_denied_on_attacked_path boardC2 none (by decide)
      ⟨PieceType.rook, PieceColor.white, false⟩ (by decide) rfl rfl
      (by decide) (by decide) (by decide)⟩

-- ─── Pawn and slider characterizations ───

theorem mem_pawnForward {b : Board} {pos : Position} {color : PieceColor}
    {x : Position} :
    x ∈ pawnForward b pos color ↔
      isInBounds (pos.row + pawnDir color) pos.col = true ∧
      getSq b (pos.row + pawnDir color) pos.col = none ∧
      (x = Position.mk (pos.row + pawnDir color) pos.col ∨
        (pos.row = pawnStartRow color ∧
         getSq b (pos.row + 2 * pawnDir color) pos.col = none ∧
         x = Position.mk (pos.row + 2 * pawnDir color) pos.col)) := by
  unfold pawnForward
  by_cases h1 : isInBounds (pos.row + pawnDir color) pos.col = true ∧
      getSq b (pos.row + pawnDir color) pos.col = none
  · rw [if_pos h1]
    by_cases h2 : pos.row = pawnStartRow color ∧
        getSq b (pos.row + 2 * pawnDir color) pos.col = none
    · rw [if_pos h2]
      simp only [List.mem_cons, List.mem_singleton, List.not_mem_nil, or_false]
      constructor
      · rintro (hx | hx)
        · exact ⟨h1.1, h1.2, Or.inl hx⟩
        · exact ⟨h1.1, h1.2, Or.inr ⟨h2.1, h2.2, hx⟩⟩
      · rintro ⟨-, -, hx | ⟨-, -, hx⟩⟩
        · exact Or.inl hx
        · exact Or.inr hx
    · rw [if_neg h2]
      simp only [List.mem_cons, List.not_mem_nil, or_false]
      constructor
      · intro hx
        exact ⟨h1.1, h1.2, Or.inl hx⟩
      · rintro ⟨-, -, hx | ⟨ha, hb, -⟩⟩
        · exact hx
        · exact absurd ⟨ha, hb⟩ h2
  · rw [if_neg h1]
    simp only [List.not_mem_nil, false_iff]
    rintro ⟨ha, hb, -⟩
    exact h1 ⟨ha, hb⟩

theorem mem_pawnDiag {b : Board} {pos : Position} {color : PieceColor}
    {ept : Option Position} {dc : Int} {x : Position} :
    x ∈ pawnDiag b pos color ept dc ↔
      isInBounds (pos.row + pawnDir color) (pos.col + dc) = true ∧
      x = Position.mk (pos.row + pawnDir color) (pos.col + dc) ∧
      ((∃ t, getSq b (pos.row + pawnDir color) (pos.col + dc) = some t ∧
          t.color ≠ color) ∨
       (∃ e, ept = some e ∧ e.row = pos.row + pawnDir color ∧
          e.col = pos.col + dc)) := by
  unfold pawnDiag
  by_cases hb : isInBounds (pos.row + pawnDir color) (pos.col + dc) = true
  · rw [if_pos hb]
    rw [List.mem_append]
    constructor
    · rintro (h | h)
      · cases hg : getSq b (pos.row + pawnDir color) (pos.col + dc) with
        | none => rw [hg] at h; simp at h
        | some t =>
          rw [hg] at h
          dsimp only at h
          by_cases hc : t.color ≠ color
          · rw [if_pos hc] at h
            simp only [List.mem_singleton] at h
            exact ⟨hb, h, Or.inl ⟨t, rfl, hc⟩⟩
          · rw [if_neg hc] at h
            simp at h
      · cases hept : ept with
        | none => rw [hept] at h; simp at h
        | some e =>
          rw [hept] at h
          dsimp only at h
          by_cases hc : e.row = pos.row + pawnDir color ∧ e.col = pos.col + dc
          · rw [if_pos hc] at h
            simp only [List.mem_singleton] at h
            exact ⟨hb, h, Or.inr ⟨e, rfl, hc.1, hc.2⟩⟩
          · rw [if_neg hc] at h
            simp at h
    · rintro ⟨-, hx, ⟨t, hg, hc⟩ | ⟨e, hept, he1, he2⟩⟩
      · left
        rw [hg]
        dsimp only
        rw [if_pos hc]
        simp [hx]
      · right
        rw [hept]
        dsimp only
        rw [if_pos ⟨he1, he2⟩]
        simp [hx]
  · rw [if_neg hb]
    simp only [List.not_mem_nil, false_iff]
    rintro ⟨ha, -⟩
    exact hb ha

theorem mem_getPawnMoves {b : Board} {pos : Position} {color : PieceColor}
    {ept : Option Position} {x : Position} :
    x ∈ getPawnMoves b pos color ept ↔
      x ∈ pawnForward b pos color ∨ x ∈ pawnDiag b pos color ept (-1) ∨
        x ∈ pawnDiag b pos color ept 1 := by
  unfold getPawnMoves
  simp [List.mem_append, or_assoc]

theorem mem_slide_bounds_shape {b : Board} {color : PieceColor} {dr dc : Int} :
    ∀ (fuel : Nat) (r c : Int) {x : Position}, x ∈ slide b color dr dc r c fuel →
      isInBounds x.row x.col = true ∧
      ∃ m : Nat, x.row = r + (m : Int) * dr ∧ x.col = c + (m : Int) * dc := by
  intro fuel
  induction fuel with
  | zero =>
    intro r c x h
    simp [slide] at h
  | succ n ih =>
    intro r c x h
    simp only [slide] at h
    by_cases hb : isInBounds r c = true
    · rw [if_pos hb] at h
      cases hg : getSq b r c with
      | none =>
        rw [hg] at h
        rcases List.mem_cons.mp h with hx | hx
        · subst hx
          exact ⟨hb, 0, by simp, by simp⟩
        · obtain ⟨hbx, m, hr, hc⟩ := ih (r + dr) (c + dc) hx
          refine ⟨hbx, m + 1, ?_, ?_⟩
          · rw [hr]; push_cast; ring
          · rw [hc]; push_cast; ring
      | some t =>
        rw [hg] at h
        dsimp only at h
        by_cases hcl : t.color ≠ color
        · rw [if_pos hcl] at h
          simp only [List.mem_singleton] at h
          subst h
          exact ⟨hb, 0, by simp, by simp⟩
        · rw [if_neg hcl] at h
          simp at h
    · rw [if_neg hb] at h
      simp at h

theorem mem_getPawnMoves_bounds {b : Board} {pos : Position} {color : PieceColor}
    {ept : Option Position} {x : Position} (h : x ∈ getPawnMoves b pos color ept) :
    isInBounds x.row x.col = true := by
  rcases mem_getPawnMoves.mp h with hf | hd | hd
  · rcases mem_pawnForward.mp hf with ⟨hb1, -, hx | ⟨hs, -, hx⟩⟩
    · subst hx; exact hb1
    · subst hx
      rw [isInBounds_iff] at hb1 ⊢
      cases color <;>
        simp only [pawnDir, pawnStartRow, if_pos, if_neg, reduceCtorEq] at hs hb1 ⊢ <;>
        simp at hs hb1 ⊢ <;> omega
  all_goals
    rcases mem_pawnDiag.mp hd with ⟨hb1, hx, -⟩
    subst hx
    exact hb1

theorem mem_getRookMoves_shape {b : Board} {pos : Position} {color : PieceColor}
    {x : Position} (h : x ∈ getRookMoves b pos color) :
    isInBounds x.row x.col = true ∧
    ∃ d, d ∈ rookDirs ∧ ∃ m : Nat, x.row = pos.row + ((m : Int) + 1) * d.1 ∧
      x.col = pos.col + ((m : Int) + 1) * d.2 := by
  unfold getRookMoves at h
  rw [List.mem_flatMap] at h
  obtain ⟨d, hd, hx⟩ := h
  obtain ⟨hbx, m, hr, hc⟩ := mem_slide_bounds_shape 8 _ _ hx
  exact ⟨hbx, d, hd, m, by rw [hr]; ring, by rw [hc]; ring⟩

theorem mem_getBishopMoves_shape {b : Board} {pos : Position} {color : PieceColor}
    {x : Position} (h : x ∈ getBishopMoves b pos color) :
    isInBounds x.row x.col = true ∧
    ∃ d, d ∈ bishopDirs ∧ ∃ m : Nat, x.row = pos.row + ((m : Int) + 1) * d.1 ∧
      x.col = pos.col + ((m : Int) + 1) * d.2 := by
  unfold getBishopMoves at h
  rw [List.mem_flatMap] at h
  obtain ⟨d, hd, hx⟩ := h
  obtain ⟨hbx, m, hr, hc⟩ := mem_slide_bounds_shape 8 _ _ hx
  exact ⟨hbx, d, hd, m, by rw [hr]; ring, by rw [hc]; ring⟩

theorem mem_getRawMoves_bounds {b : Board} {pos : Position} {ept : Option Position}
    {x : Position} (h : x ∈ getRawMoves b pos ept) :
    isInBounds x.row x.col = true := by
  unfold getRawMoves at h
  cases hg : getSq b pos.row pos.col with
  | none => rw [hg] at h; simp at h
  | some piece =>
    rw [hg] at h
    dsimp only at h
    cases htype : piece.type <;> rw [htype] at h <;> dsimp only at h
    · rcases mem_stepMoves.mp h with ⟨o, -, hx, hb, -⟩
      subst hx; exact hb
    · rcases List.mem_append.mp h with h' | h'
      · exact (mem_getRookMoves_shape h').1
      · exact (mem_getBishopMoves_shape h').1
    · exact (mem_getRookMoves_shape h).1
    · exact (mem_getBishopMoves_shape h).1
    · rcases mem_stepMoves.mp h with ⟨o, -, hx, hb, -⟩
      subst hx; exact hb
    · exact mem_getPawnMoves_bounds h

theorem mem_getCastlingMoves_bounds {b : Board} {pos : Position}
    {color : PieceColor} {x : Position} (h : x ∈ getCastlingMoves b pos color) :
    isInBounds x.row x.col = true := by
  obtain ⟨king, -, -, hrow, -, hside⟩ := mem_getCastlingMoves h
  rcases hside with ⟨hx, -⟩ | ⟨hx, -⟩ <;> subst hx <;> rw [isInBounds_iff] <;>
    dsimp only <;> cases color <;> simp at hrow <;> omega

-- ─── C8: all generated destinations stay on the board ───

/-- C8: for a square with coordinates in [0,7], every destination produced by
`getRawMoves` (and hence by `getLegalMoves`) has row and column in [0,7]. -/
theorem moves_stay_on_board (b : Board) (pos : Position) (ept : Option Position)
    (h0 : 0 ≤ pos.row) (h1 : pos.row ≤ 7) (h2 : 0 ≤ pos.col) (h3 : pos.col ≤ 7) :
    (∀ m ∈ getRawMoves b pos ept,
      0 ≤ m.row ∧ m.row ≤ 7 ∧ 0 ≤ m.col ∧ m.col ≤ 7) ∧
    (∀ m ∈ getLegalMoves b pos ept,
      0 ≤ m.row ∧ m.row ≤ 7 ∧ 0 ≤ m.col ∧ m.col ≤ 7) := by
  constructor
  · intro m hm
    exact isInBounds_iff.mp (mem_getRawMoves_bounds hm)
  · intro m hm
    cases hg : getSq b pos.row pos.col with
    | none =>
      unfold getLegalMoves at hm
      rw [hg] at hm
      simp at hm
    | some piece =>
      rcases ((mem_getLegalMoves_iff hg).mp hm).1 with h | ⟨-, h⟩
      · exact isInBounds_iff.mp (mem_getRawMoves_bounds h)
      · exact isInBounds_iff.mp (mem_getCastlingMoves_bounds h)

/-- Witness for C8 at the initial pawn square e2. -/
theorem moves_stay_on_board_witness :
    ((0 : Int) ≤ 6 ∧ (6 : Int) ≤ 7 ∧ (0 : Int) ≤ 4 ∧ (4 : Int) ≤ 7) ∧
    ((∀ m ∈ getRawMoves boardPawnE2 (Position.mk 6 4) none,
        0 ≤ m.row ∧ m.row ≤ 7 ∧ 0 ≤ m.col ∧ m.col ≤ 7) ∧
     (∀ m ∈ getLegalMoves boardPawnE2 (Position.mk 6 4) none,
        0 ≤ m.row ∧ m.row ≤ 7 ∧ 0 ≤ m.col ∧ m.col ≤ 7)) :=
  ⟨by norm_num,
    moves_stay_on_board boardPawnE2 (Position.mk 6 4) none
      (by norm_num) (by norm_num) (by norm_num) (by norm_num)⟩

-- ─── Nodup facts for move generation ───

theorem slide_nodup {b : Board} {color : PieceColor} {dr dc : Int}
    (hd : ¬(dr = 0 ∧ dc = 0)) :
    ∀ (fuel : Nat) (r c : Int), (slide b color dr dc r c fuel).Nodup := by
  intro fuel
  induction fuel with
  | zero =>
    intro r c
    simp [slide]
  | succ n ih =>
    intro r c
    simp only [slide]
    by_cases hb : isInBounds r c = true
    · rw [if_pos hb]
      cases hg : getSq b r c with
      | none =>
        rw [List.nodup_cons]
        refine ⟨?_, ih (r + dr) (c + dc)⟩
        intro hmem
        obtain ⟨-, m, hr, hc⟩ := mem_slide_bounds_shape n (r + dr) (c + dc) hmem
        dsimp only at hr hc
        have h1 : ((m : Int) + 1) * dr = 0 := by rw [add_mul, one_mul]; omega
        have h2 : ((m : Int) + 1) * dc = 0 := by rw [add_mul, one_mul]; omega
        have hm1 : ((m : Int) + 1) ≠ 0 := by omega
        refine hd ⟨?_, ?_⟩
        · rcases mul_eq_zero.mp h1 with h | h
          · exact absurd h hm1
          · exact h
        · rcases mul_eq_zero.mp h2 with h | h
          · exact absurd h hm1
          · exact h
      | some t =>
        dsimp only
        by_cases hc : t.color ≠ color
        · rw [if_pos hc]
          simp
        · rw [if_neg hc]
          simp
    · rw [if_neg hb]
      simp

theorem ray_shape {b : Board} {color : PieceColor} {pos : Position}
    {d : Int × Int} {x : Position}
    (hx : x ∈ slide b color d.1 d.2 (pos.row + d.1) (pos.col + d.2) 8) :
    ∃ m : Nat, x.row = pos.row + ((m : Int) + 1) * d.1 ∧
      x.col = pos.col + ((m : Int) + 1) * d.2 := by
  obtain ⟨-, m, hr, hc⟩ := mem_slide_bounds_shape 8 _ _ hx
  exact ⟨m, by rw [hr]; ring, by rw [hc]; ring⟩

theorem ray_disjoint_of {b : Board} {color : PieceColor} {pos : Position}
    (d d' : Int × Int)
    (h : ∀ (m m' : Nat), ¬(((m : Int) + 1) * d.1 = ((m' : Int) + 1) * d'.1 ∧
      ((m : Int) + 1) * d.2 = ((m' : Int) + 1) * d'.2)) :
    (slide b color d.1 d.2 (pos.row + d.1) (pos.col + d.2) 8).Disjoint
      (slide b color d'.1 d'.2 (pos.row + d'.1) (pos.col + d'.2) 8) := by
  intro x hx hx'
  obtain ⟨m, hr, hc⟩ := @ray_shape _ _ pos _ _ hx
  obtain ⟨m', hr', hc'⟩ := @ray_shape _ _ pos _ _ hx'
  exact h m m' ⟨by omega, by omega⟩

theorem getRookMoves_nodup {b : Board} {pos : Position} {color : PieceColor} :
    (getRookMoves b pos color).Nodup := by
  unfold getRookMoves
  rw [List.nodup_flatMap]
  refine ⟨?_, ?_⟩
  · intro d hd
    unfold rookDirs at hd
    fin_cases hd <;> exact slide_nodup (by decide) 8 _ _
  · unfold rookDirs
    refine List.Pairwise.cons ?_ (List.Pairwise.cons ?_ (List.Pairwise.cons ?_
      (List.Pairwise.cons ?_ List.Pairwise.nil))) <;>
      intro d' hd' <;> fin_cases hd' <;>
      exact ray_disjoint_of _ _
        (fun m m' => by rintro ⟨h1, h2⟩; dsimp only at h1 h2; omega)

theorem getBishopMoves_nodup {b : Board} {pos : Position} {color : PieceColor} :
    (getBishopMoves b pos color).Nodup := by
  unfold getBishopMoves
  rw [List.nodup_flatMap]
  refine ⟨?_, ?_⟩
  · intro d hd
    unfold bishopDirs at hd
    fin_cases hd <;> exact slide_nodup (by decide) 8 _ _
  · unfold bishopDirs
    refine List.Pairwise.cons ?_ (List.Pairwise.cons ?_ (List.Pairwise.cons ?_
      (List.Pairwise.cons ?_ List.Pairwise.nil))) <;>
      intro d' hd' <;> fin_cases hd' <;>
      exact ray_disjoint_of _ _
        (fun m m' => by rintro ⟨h1, h2⟩; dsimp only at h1 h2; omega)

theorem mem_getRookMoves_rowcol {b : Board} {pos : Position} {color : PieceColor}
    {x : Position} (h : x ∈ getRookMoves b pos color) :
    (x.row = pos.row ∧ x.col ≠ pos.col) ∨ (x.row ≠ pos.row ∧ x.col = pos.col) := by
  obtain ⟨-, d, hd, m, hr, hc⟩ := mem_getRookMoves_shape h
  unfold rookDirs at hd
  fin_cases hd <;> dsimp only at hr hc <;> omega

theorem mem_getBishopMoves_rowcol {b : Board} {pos : Position} {color : PieceColor}
    {x : Position} (h : x ∈ getBishopMoves b pos color) :
    x.row ≠ pos.row ∧ x.col ≠ pos.col := by
  obtain ⟨-, d, hd, m, hr, hc⟩ := mem_getBishopMoves_shape h
  unfold bishopDirs at hd
  fin_cases hd <;> dsimp only at hr hc <;> omega

theorem getQueenMoves_nodup {b : Board} {pos : Position} {color : PieceColor} :
    (getQueenMoves b pos color).Nodup := by
  unfold getQueenMoves
  refine getRookMoves_nodup.append getBishopMoves_nodup ?_
  intro x hx hx'
  rcases mem_getRookMoves_rowcol hx with ⟨h1, h2⟩ | ⟨h1, h2⟩ <;>
    rcases mem_getBishopMoves_rowcol hx' with ⟨h3, h4⟩ <;> omega

theorem mem_stepMoves_shape {b : Board} {pos : Position} {color : PieceColor}
    {offs : List (Int × Int)} {x : Position} (hx : x ∈ stepMoves b pos color offs) :
    ∃ o ∈ offs, x = Position.mk (pos.row + o.1) (pos.col + o.2) := by
  obtain ⟨o, ho, h1, -, -⟩ := mem_stepMoves.mp hx
  exact ⟨o, ho, h1⟩

theorem stepMoves_singleton_nodup {b : Board} {pos : Position} {color : PieceColor}
    {o : Int × Int} : (stepMoves b pos color [o]).Nodup := by
  unfold stepMoves
  simp only [List.flatMap_cons, List.flatMap_nil, List.append_nil]
  split
  · split
    · simp
    · split <;> simp
  · simp

theorem stepMoves_nodup {b : Board} {pos : Position} {color : PieceColor} :
    ∀ {offs : List (Int × Int)}, offs.Nodup → (stepMoves b pos color offs).Nodup := by
  intro offs
  induction offs with
  | nil =>
    intro
    simp [stepMoves]
  | cons o os ih =>
    intro h
    rw [List.nodup_cons] at h
    have hsplit : stepMoves b pos color (o :: os)
        = stepMoves b pos color [o] ++ stepMoves b pos color os := by
      simp [stepMoves]
    rw [hsplit]
    refine stepMoves_singleton_nodup.append (ih h.2) ?_
    intro x hx hx'
    obtain ⟨o1, ho1, hxo1⟩ := mem_stepMoves_shape hx
    rw [List.mem_singleton] at ho1
    rw [ho1] at hxo1
    obtain ⟨o', ho', hxo'⟩ := mem_stepMoves_shape hx'
    rw [hxo1] at hxo'
    rw [Position.mk.injEq] at hxo'
    have : o = o' := Prod.ext (by omega) (by omega)
    rw [this] at h
    exact h.1 ho'

theorem pawnForward_nodup {b : Board} {pos : Position} {color : PieceColor} :
    (pawnForward b pos color).Nodup := by
  unfold pawnForward
  split
  · rw [List.nodup_cons]
    constructor
    · intro hmem
      split at hmem
      · rw [List.mem_singleton, Position.mk.injEq] at hmem
        cases color <;> simp [pawnDir] at hmem <;> omega
      · simp at hmem
    · split <;> simp
  · simp

theorem pawnDiag_nodup {b : Board} {pos : Position} {color : PieceColor}
    {ept : Option Position} {dc : Int}
    (hept : ∀ e, ept = some e → getSq b e.row e.col = none) :
    (pawnDiag b pos color ept dc).Nodup := by
  unfold pawnDiag
  split
  · cases hg : getSq b (pos.row + pawnDir color) (pos.col + dc) with
    | none =>
      simp only [List.nil_append]
      cases ept with
      | none => simp
      | some e =>
        dsimp only
        split <;> simp
    | some t =>
      cases hept' : ept with
      | none =>
        dsimp only
        split <;> simp
      | some e =>
        dsimp only
        by_cases hmatch : e.row = pos.row + pawnDir color ∧ e.col = pos.col + dc
        · exfalso
          have := hept e hept'
          rw [hmatch.1, hmatch.2] at this
          rw [this] at hg
          cases hg
        · rw [if_neg hmatch]
          simp only [List.append_nil]
          split <;> simp
  · simp

theorem getPawnMoves_nodup {b : Board} {pos : Position} {color : PieceColor}
    {ept : Option Position}
    (hept : ∀ e, ept = some e → getSq b e.row e.col = none) :
    (getPawnMoves b pos color ept).Nodup := by
  unfold getPawnMoves
  refine (pawnForward_nodup.append (pawnDiag_nodup hept) ?_).append
    (pawnDiag_nodup hept) ?_
  · intro x hx hx'
    obtain ⟨-, h', -⟩ := mem_pawnDiag.mp hx'
    rcases mem_pawnForward.mp hx with ⟨-, -, h | ⟨-, -, h⟩⟩ <;>
      (rw [h, Position.mk.injEq] at h'; omega)
  · intro x hx hx'
    obtain ⟨-, h', -⟩ := mem_pawnDiag.mp hx'
    rcases List.mem_append.mp hx with hf | hd
    · rcases mem_pawnForward.mp hf with ⟨-, -, h | ⟨-, -, h⟩⟩ <;>
        (rw [h, Position.mk.injEq] at h'; omega)
    · obtain ⟨-, h'', -⟩ := mem_pawnDiag.mp hd
      rw [h'', Position.mk.injEq] at h'
      omega

-- ─── C7: duplicate destinations ───

/-- C7 counterexample: with an enemy piece standing on the en-passant target
square, the pawn's diagonal pushes that square twice (once as a capture, once
as en-passant), so `getRawMoves` contains a duplicate destination. -/
theorem getRawMoves_duplicate_cex :
    ¬ (getRawMoves boardC7cex (Position.mk 4 4) (some (Position.mk 3 5))).Nodup := by
  decide

/-- C7 amended: provided the en-passant target square (if any) is empty — as
it always is in a reachable position, being the square a pawn skipped — the
list returned by `getRawMoves` contains no two identical destinations. -/
theorem getRawMoves_no_duplicates (b : Board) (pos : Position)
    (ept : Option Position)
    (hept : ∀ e, ept = some e → getSq b e.row e.col = none) :
    (getRawMoves b pos ept).Nodup := by
  unfold getRawMoves
  cases hg : getSq b pos.row pos.col with
  | none => simp
  | some piece =>
    dsimp only
    cases piece.type
    · exact stepMoves_nodup (by decide)
    · exact getQueenMoves_nodup
    · exact getRookMoves_nodup
    · exact getBishopMoves_nodup
    · exact stepMoves_nodup (by decide)
    · exact getPawnMoves_nodup hept

/-- Witness for the amended C7 at a genuine en-passant position. -/
theorem getRawMoves_no_duplicates_witness :
    getSq boardC3wit 2 5 = none ∧
    (getRawMoves boardC3wit (Position.mk 3 4) (some (Position.mk 2 5))).Nodup :=
  ⟨by decide,
    getRawMoves_no_duplicates boardC3wit (Position.mk 3 4) (some (Position.mk 2 5))
      (fun e he => by cases he; decide)⟩

-- ─── Board-transfer machinery for the castling case ───

theorem positionsEqual_iff {a b : Position} : positionsEqual a b = true ↔ a = b := by
  unfold positionsEqual
  cases a
  cases b
  simp [Position.mk.injEq]

theorem list_find_congr {α : Type} {p q : α → Bool} :
    ∀ (l : List α), (∀ a ∈ l, p a = q a) → l.find? p = l.find? q := by
  intro l
  induction l with
  | nil => intro; rfl
  | cons a l ih =>
    intro h
    cases hpa : p a with
    | true =>
      rw [List.find?_cons_of_pos _ hpa,
        List.find?_cons_of_pos _ (by rw [← h a (List.mem_cons_self a l)]; exact hpa)]
    | false =>
      rw [List.find?_cons_of_neg _ (by simp [hpa]),
        List.find?_cons_of_neg _ (by
          rw [← h a (List.mem_cons_self a l)]
          simp [hpa])]
      exact ih (fun x hx => h x (List.mem_cons_of_mem a hx))

/-- A corner of the board is never strictly interior to a sliding ray between
two on-board squares. -/
theorem corner_not_interior {qr qc dr dc crow ccol j k : Int}
    (hdr : dr = -1 ∨ dr = 0 ∨ dr = 1) (hdc : dc = -1 ∨ dc = 0 ∨ dc = 1)
    (hd0 : ¬(dr = 0 ∧ dc = 0))
    (hcr : crow = 0 ∨ crow = 7) (hcc : ccol = 0 ∨ ccol = 7)
    (hq : 0 ≤ qr ∧ qr ≤ 7 ∧ 0 ≤ qc ∧ qc ≤ 7)
    (hj : 1 ≤ j) (hjk : j < k)
    (hcorner : qr + j * dr = crow ∧ qc + j * dc = ccol)
    (hkin : 0 ≤ qr + k * dr ∧ qr + k * dr ≤ 7 ∧ 0 ≤ qc + k * dc ∧ qc + k * dc ≤ 7) :
    False := by
  rcases hdr with h | h | h <;> rcases hdc with h' | h' | h' <;> subst h <;> subst h' <;>
    first
    | exact hd0 ⟨rfl, rfl⟩
    | omega

theorem slide_transfer (A S : Board) (att : PieceColor) (crow ccol drow dcol : Int)
    (hcr : crow = 0 ∨ crow = 7) (hcc : ccol = 0 ∨ ccol = 7)
    (heq : ∀ i j, ¬(i = crow ∧ j = ccol) → ¬(i = drow ∧ j = dcol) →
      getSq A i j = getSq S i j)
    (hdA : ∃ p, getSq A drow dcol = some p)
    (kp : Position) (hkp : getSq A kp.row kp.col = getSq S kp.row kp.col)
    (dr dc : Int)
    (hdr : dr = -1 ∨ dr = 0 ∨ dr = 1) (hdc : dc = -1 ∨ dc = 0 ∨ dc = 1)
    (hd0 : ¬(dr = 0 ∧ dc = 0))
    (qr qc : Int) (hq : 0 ≤ qr ∧ qr ≤ 7 ∧ 0 ≤ qc ∧ qc ≤ 7) :
    ∀ (fuel : Nat) (j : Int), 1 ≤ j →
      kp ∈ slide A att dr dc (qr + j * dr) (qc + j * dc) fuel →
      kp ∈ slide S att dr dc (qr + j * dr) (qc + j * dc) fuel := by
  intro fuel
  induction fuel with
  | zero =>
    intro j hj h
    simp [slide] at h
  | succ n ih =>
    intro j hj h
    simp only [slide] at h ⊢
    by_cases hb : isInBounds (qr + j * dr) (qc + j * dc) = true
    · rw [if_pos hb] at h ⊢
      cases hg : getSq A (qr + j * dr) (qc + j * dc) with
      | some t =>
        rw [hg] at h
        dsimp only at h
        by_cases hcol : t.color ≠ att
        · rw [if_pos hcol] at h
          rw [List.mem_singleton] at h
          have hS : getSq S (qr + j * dr) (qc + j * dc) = some t := by
            have h2 := hkp
            rw [h] at h2
            dsimp only at h2
            rw [hg] at h2
            exact h2.symm
          rw [hS]
          dsimp only
          rw [if_pos hcol]
          simp [h]
        · rw [if_neg hcol] at h
          simp at h
      | none =>
        rw [hg] at h
        rcases List.mem_cons.mp h with hh | hh
        · have hS : getSq S (qr + j * dr) (qc + j * dc) = none := by
            have h2 := hkp
            rw [hh] at h2
            dsimp only at h2
            rw [hg] at h2
            exact h2.symm
          rw [hS]
          rw [hh]
          exact List.mem_cons_self _ _
        · have harr : qr + j * dr + dr = qr + (j + 1) * dr := by ring
          have harc : qc + j * dc + dc = qc + (j + 1) * dc := by ring
          rw [harr, harc] at hh
          by_cases hcorner : (qr + j * dr) = crow ∧ (qc + j * dc) = ccol
          · exfalso
            obtain ⟨hbk, m, hr, hc⟩ := mem_slide_bounds_shape n _ _ hh
            have hkr : kp.row = qr + (j + 1 + (m : Int)) * dr := by rw [hr]; ring
            have hkc : kp.col = qc + (j + 1 + (m : Int)) * dc := by rw [hc]; ring
            rw [isInBounds_iff] at hbk
            rw [hkr, hkc] at hbk
            exact corner_not_interior hdr hdc hd0 hcr hcc hq hj
              (by omega : j < j + 1 + (m : Int)) hcorner hbk
          · by_cases hdest : (qr + j * dr) = drow ∧ (qc + j * dc) = dcol
            · exfalso
              obtain ⟨p, hp⟩ := hdA
              rw [hdest.1, hdest.2] at hg
              rw [hg] at hp
              cases hp
            · have hS : getSq S (qr + j * dr) (qc + j * dc) = none := by
                rw [← heq _ _ hcorner hdest]
                exact hg
              rw [hS]
              refine List.mem_cons_of_mem _ ?_
              rw [harr, harc]
              exact ih (j + 1) (by omega) hh
    · rw [if_neg hb] at h
      simp at h

theorem stepMoves_transfer (A S : Board) (att : PieceColor) (q : Position)
    (offs : List (Int × Int)) (kp : Position)
    (hkp : getSq A kp.row kp.col = getSq S kp.row kp.col)
    (h : kp ∈ stepMoves A q att offs) : kp ∈ stepMoves S q att offs := by
  rw [mem_stepMoves] at h ⊢
  obtain ⟨o, ho, hx, hb, hocc⟩ := h
  refine ⟨o, ho, hx, hb, ?_⟩
  have hsq : getSq A (q.row + o.1) (q.col + o.2) = getSq S (q.row + o.1) (q.col + o.2) := by
    have h2 := hkp
    rw [hx] at h2
    exact h2
  rcases hocc with hg | ⟨t, hg, hc⟩
  · left
    rw [← hsq]
    exact hg
  · right
    exact ⟨t, by rw [← hsq]; exact hg, hc⟩

theorem pawnDiag_transfer (A S : Board) (att : PieceColor) (q : Position)
    (dc : Int) (kp : Position)
    (hkp : getSq A kp.row kp.col = getSq S kp.row kp.col)
    (h : kp ∈ pawnDiag A q att none dc) : kp ∈ pawnDiag S q att none dc := by
  rw [mem_pawnDiag] at h ⊢
  obtain ⟨hb, hx, hocc⟩ := h
  refine ⟨hb, hx, ?_⟩
  have hsq : getSq A (q.row + pawnDir att) (q.col + dc)
      = getSq S (q.row + pawnDir att) (q.col + dc) := by
    have h2 := hkp
    rw [hx] at h2
    exact h2
  rcases hocc with ⟨t, hg, hc⟩ | ⟨e, he, -⟩
  · exact Or.inl ⟨t, by rw [← hsq]; exact hg, hc⟩
  · cases he

theorem pawnMoves_transfer (A S : Board) (att : PieceColor)
    (crow ccol drow dcol : Int)
    (hcr : crow = 0 ∨ crow = 7)
    (heq : ∀ i j, ¬(i = crow ∧ j = ccol) → ¬(i = drow ∧ j = dcol) →
      getSq A i j = getSq S i j)
    (hdA : ∃ p, getSq A drow dcol = some p)
    (q : Position) (kp : Position)
    (hkp : getSq A kp.row kp.col = getSq S kp.row kp.col)
    (h : kp ∈ getPawnMoves A q att none) : kp ∈ getPawnMoves S q att none := by
  rw [mem_getPawnMoves] at h ⊢
  rcases h with hf | hd | hd
  · left
    rw [mem_pawnForward] at hf ⊢
    obtain ⟨hb1, hempty1, hcase⟩ := hf
    rcases hcase with hx | ⟨hstart, hempty2, hx⟩
    · have hS1 : getSq S (q.row + pawnDir att) q.col = none := by
        have h2 := hkp
        rw [hx] at h2
        dsimp only at h2
        rw [hempty1] at h2
        exact h2.symm
      exact ⟨hb1, hS1, Or.inl hx⟩
    · have hS2 : getSq S (q.row + 2 * pawnDir att) q.col = none := by
        have h2 := hkp
        rw [hx] at h2
        dsimp only at h2
        rw [hempty2] at h2
        exact h2.symm
      have hs1d : ¬((q.row + pawnDir att) = drow ∧ q.col = dcol) := by
        rintro ⟨e1, e2⟩
        obtain ⟨p, hp⟩ := hdA
        rw [← e1, ← e2] at hp
        rw [hempty1] at hp
        cases hp
      have hs1c : ¬((q.row + pawnDir att) = crow ∧ q.col = ccol) := by
        rintro ⟨e1, -⟩
        rw [hstart] at e1
        cases att <;> simp [pawnDir, pawnStartRow] at e1 <;> omega
      have hS1 : getSq S (q.row + pawnDir att) q.col = none := by
        rw [← heq _ _ hs1c hs1d]
        exact hempty1
      exact ⟨hb1, hS1, Or.inr ⟨hstart, hS2, hx⟩⟩
  · exact Or.inr (Or.inl (pawnDiag_transfer A S att q (-1) kp hkp hd))
  · exact Or.inr (Or.inr (pawnDiag_transfer A S att q 1 kp hkp hd))

theorem rookMoves_transfer (A S : Board) (att : PieceColor)
    (crow ccol drow dcol : Int)
    (hcr : crow = 0 ∨ crow = 7) (hcc : ccol = 0 ∨ ccol = 7)
    (heq : ∀ i j, ¬(i = crow ∧ j = ccol) → ¬(i = drow ∧ j = dcol) →
      getSq A i j = getSq S i j)
    (hdA : ∃ p, getSq A drow dcol = some p)
    (q : Position) (hqin : 0 ≤ q.row ∧ q.row ≤ 7 ∧ 0 ≤ q.col ∧ q.col ≤ 7)
    (kp : Position) (hkp : getSq A kp.row kp.col = getSq S kp.row kp.col)
    (h : kp ∈ getRookMoves A q att) : kp ∈ getRookMoves S q att := by
  unfold getRookMoves at h ⊢
  rw [List.mem_flatMap] at h ⊢
  obtain ⟨d, hd, hx⟩ := h
  refine ⟨d, hd, ?_⟩
  have h1 : q.row + d.1 = q.row + 1 * d.1 := by ring
  have h2 : q.col + d.2 = q.col + 1 * d.2 := by ring
  rw [h1, h2] at hx ⊢
  have hdir : (d.1 = -1 ∨ d.1 = 0 ∨ d.1 = 1) ∧ (d.2 = -1 ∨ d.2 = 0 ∨ d.2 = 1) ∧
      ¬(d.1 = 0 ∧ d.2 = 0) := by
    unfold rookDirs at hd
    fin_cases hd <;> exact ⟨by decide, by decide, by decide⟩
  exact slide_transfer A S att crow ccol drow dcol hcr hcc heq hdA kp hkp d.1 d.2
    hdir.1 hdir.2.1 hdir.2.2 q.row q.col hqin 8 1 (le_refl 1) hx

theorem bishopMoves_transfer (A S : Board) (att : PieceColor)
    (crow ccol drow dcol : Int)
    (hcr : crow = 0 ∨ crow = 7) (hcc : ccol = 0 ∨ ccol = 7)
    (heq : ∀ i j, ¬(i = crow ∧ j = ccol) → ¬(i = drow ∧ j = dcol) →
      getSq A i j = getSq S i j)
    (hdA : ∃ p, getSq A drow dcol = some p)
    (q : Position) (hqin : 0 ≤ q.row ∧ q.row ≤ 7 ∧ 0 ≤ q.col ∧ q.col ≤ 7)
    (kp : Position) (hkp : getSq A kp.row kp.col = getSq S kp.row kp.col)
    (h : kp ∈ getBishopMoves A q att) : kp ∈ getBishopMoves S q att := by
  unfold getBishopMoves at h ⊢
  rw [List.mem_flatMap] at h ⊢
  obtain ⟨d, hd, hx⟩ := h
  refine ⟨d, hd, ?_⟩
  have h1 : q.row + d.1 = q.row + 1 * d.1 := by ring
  have h2 : q.col + d.2 = q.col + 1 * d.2 := by ring
  rw [h1, h2] at hx ⊢
  have hdir : (d.1 = -1 ∨ d.1 = 0 ∨ d.1 = 1) ∧ (d.2 = -1 ∨ d.2 = 0 ∨ d.2 = 1) ∧
      ¬(d.1 = 0 ∧ d.2 = 0) := by
    unfold bishopDirs at hd
    fin_cases hd <;> exact ⟨by decide, by decide, by decide⟩
  exact slide_transfer A S att crow ccol drow dcol hcr hcc heq hdA kp hkp d.1 d.2
    hdir.1 hdir.2.1 hdir.2.2 q.row q.col hqin 8 1 (le_refl 1) hx

theorem rawMoves_transfer (A S : Board) (att : PieceColor)
    (crow ccol drow dcol : Int)
    (hcr : crow = 0 ∨ crow = 7) (hcc : ccol = 0 ∨ ccol = 7)
    (heq : ∀ i j, ¬(i = crow ∧ j = ccol) → ¬(i = drow ∧ j = dcol) →
      getSq A i j = getSq S i j)
    (hdA : ∃ p, getSq A drow dcol = some p)
    (q : Position)
    (hq : getSq A q.row q.col = getSq S q.row q.col)
    (kp : Position) (hkp : getSq A kp.row kp.col = getSq S kp.row kp.col)
    (hmem : kp ∈ getRawMoves A q none) : kp ∈ getRawMoves S q none := by
  unfold getRawMoves at hmem ⊢
  cases hg : getSq A q.row q.col with
  | none =>
    rw [hg] at hmem
    simp at hmem
  | some piece =>
    rw [hg] at hmem
    rw [← hq, hg]
    dsimp only at hmem ⊢
    have hqin : 0 ≤ q.row ∧ q.row ≤ 7 ∧ 0 ≤ q.col ∧ q.col ≤ 7 :=
      isInBounds_iff.mp (getSq_isInBounds hg)
    cases htype : piece.type <;> simp only [htype] at hmem ⊢
    · exact stepMoves_transfer A S piece.color q kingOffsets kp hkp hmem
    · rcases List.mem_append.mp hmem with h | h
      · exact List.mem_append.mpr (Or.inl (rookMoves_transfer A S piece.color
          crow ccol drow dcol hcr hcc heq hdA q hqin kp hkp h))
      · exact List.mem_append.mpr (Or.inr (bishopMoves_transfer A S piece.color
          crow ccol drow dcol hcr hcc heq hdA q hqin kp hkp h))
    · exact rookMoves_transfer A S piece.color crow ccol drow dcol hcr hcc heq hdA
        q hqin kp hkp hmem
    · exact bishopMoves_transfer A S piece.color crow ccol drow dcol hcr hcc heq hdA
        q hqin kp hkp hmem
    · exact stepMoves_transfer A S piece.color q knightOffsets kp hkp hmem
    · exact pawnMoves_transfer A S piece.color crow ccol drow dcol hcr heq hdA
        q kp hkp hmem

theorem attacked_transfer (A S : Board) (att : PieceColor)
    (crow ccol drow dcol : Int)
    (hcr : crow = 0 ∨ crow = 7) (hcc : ccol = 0 ∨ ccol = 7)
    (heq : ∀ i j, ¬(i = crow ∧ j = ccol) → ¬(i = drow ∧ j = dcol) →
      getSq A i j = getSq S i j)
    (hcA : getSq A crow ccol = none)
    (hdA : ∃ p, getSq A drow dcol = some p ∧ p.color ≠ att)
    (kp : Position) (hkp : getSq A kp.row kp.col = getSq S kp.row kp.col)
    (h : isSquareAttacked A kp att = true) : isSquareAttacked S kp att = true := by
  unfold isSquareAttacked at h ⊢
  rw [List.any_eq_true] at h ⊢
  obtain ⟨rc, hrc, hpred⟩ := h
  refine ⟨rc, hrc, ?_⟩
  cases hg : getSq A rc.1 rc.2 with
  | none =>
    rw [hg] at hpred
    simp at hpred
  | some piece =>
    rw [hg] at hpred
    dsimp only at hpred
    by_cases hcolor : piece.color = att
    · rw [if_pos hcolor] at hpred
      have hqc : ¬(rc.1 = crow ∧ rc.2 = ccol) := by
        rintro ⟨e1, e2⟩
        rw [e1, e2] at hg
        rw [hcA] at hg
        cases hg
      have hqd : ¬(rc.1 = drow ∧ rc.2 = dcol) := by
        rintro ⟨e1, e2⟩
        obtain ⟨p, hp, hpc⟩ := hdA
        rw [e1, e2] at hg
        rw [hp] at hg
        injection hg with hg'
        rw [hg'] at hpc
        exact hpc hcolor
      have hqeq : getSq A rc.1 rc.2 = getSq S rc.1 rc.2 := heq _ _ hqc hqd
      rw [← hqeq, hg]
      dsimp only
      rw [if_pos hcolor]
      rw [List.any_eq_true] at hpred ⊢
      obtain ⟨m, hm, hmeq⟩ := hpred
      rw [positionsEqual_iff] at hmeq
      rw [hmeq] at hm
      refine ⟨kp, ?_, positionsEqual_iff.mpr rfl⟩
      have hq' : getSq A (Position.mk rc.1 rc.2).row (Position.mk rc.1 rc.2).col
          = getSq S (Position.mk rc.1 rc.2).row (Position.mk rc.1 rc.2).col := hqeq
      exact rawMoves_transfer A S att crow ccol drow dcol hcr hcc heq
        ⟨(hdA.choose), hdA.choose_spec.1⟩ (Position.mk rc.1 rc.2) hq' kp hkp hm
    · rw [if_neg hcolor] at hpred
      simp at hpred

theorem findKing_congr_of (A S : Board) (color : PieceColor)
    (h : ∀ r c, (match getSq A r c with
        | some p => decide (p.type = PieceType.king ∧ p.color = color)
        | none => false)
      = (match getSq S r c with
        | some p => decide (p.type = PieceType.king ∧ p.color = color)
        | none => false)) :
    findKing A color = findKing S color := by
  unfold findKing
  rw [list_find_congr squaresList (fun rc _ => h rc.1 rc.2)]

theorem findKing_some {b : Board} {color : PieceColor} {kp : Position}
    (h : findKing b color = some kp) :
    ∃ p, getSq b kp.row kp.col = some p ∧ p.type = PieceType.king ∧
      p.color = color := by
  unfold findKing at h
  cases hf : squaresList.find? (fun rc =>
      match getSq b rc.1 rc.2 with
      | some piece => decide (piece.type = PieceType.king ∧ piece.color = color)
      | none => false) with
  | none =>
    rw [hf] at h
    cases h
  | some rc =>
    rw [hf] at h
    have hpred := List.find?_some hf
    injection h with h'
    cases hg : getSq b rc.1 rc.2 with
    | none =>
      rw [hg] at hpred
      cases hpred
    | some p =>
      rw [hg] at hpred
      dsimp only at hpred
      have hkc := of_decide_eq_true hpred
      refine ⟨p, ?_, hkc.1, hkc.2⟩
      rw [← h']
      exact hg

theorem isInCheck_transfer (A S : Board) (color : PieceColor)
    (crow ccol drow dcol : Int)
    (hcr : crow = 0 ∨ crow = 7) (hcc : ccol = 0 ∨ ccol = 7)
    (heq : ∀ i j, ¬(i = crow ∧ j = ccol) → ¬(i = drow ∧ j = dcol) →
      getSq A i j = getSq S i j)
    (hcA : getSq A crow ccol = none)
    (hcS : ∃ p, getSq S crow ccol = some p ∧ p.type ≠ PieceType.king)
    (hdA : ∃ p, getSq A drow dcol = some p ∧ p.type ≠ PieceType.king ∧
      p.color ≠ opp color)
    (hdS : getSq S drow dcol = none)
    (h : isInCheck A color = true) : isInCheck S color = true := by
  have hfk : findKing A color = findKing S color := by
    apply findKing_congr_of
    intro r c
    by_cases hc1 : r = crow ∧ c = ccol
    · rw [hc1.1, hc1.2, hcA]
      obtain ⟨p, hp, hpt⟩ := hcS
      rw [hp]
      dsimp only
      simp [hpt]
    · by_cases hc2 : r = drow ∧ c = dcol
      · rw [hc2.1, hc2.2, hdS]
        obtain ⟨p, hp, hpt, -⟩ := hdA
        rw [hp]
        dsimp only
        simp [hpt]
      · rw [heq r c hc1 hc2]
  unfold isInCheck at h ⊢
  rw [← hfk]
  cases hf : findKing A color with
  | none =>
    rw [hf] at h
    cases h
  | some kp =>
    rw [hf] at h
    obtain ⟨p, hp, hpt, hpc⟩ := findKing_some hf
    have hkc : ¬(kp.row = crow ∧ kp.col = ccol) := by
      rintro ⟨e1, e2⟩
      rw [e1, e2] at hp
      rw [hcA] at hp
      cases hp
    have hkd : ¬(kp.row = drow ∧ kp.col = dcol) := by
      rintro ⟨e1, e2⟩
      obtain ⟨p', hp', hpt', -⟩ := hdA
      rw [e1, e2] at hp
      rw [hp'] at hp
      injection hp with h'
      rw [h'] at hpt'
      exact hpt' hpt
    exact attacked_transfer A S (opp color) crow ccol drow dcol hcr hcc heq hcA
      ⟨hdA.choose, hdA.choose_spec.1, hdA.choose_spec.2.2⟩ kp
      (heq kp.row kp.col hkc hkd) h

theorem mem_slide_head {b : Board} {color : PieceColor} {dr dc r c : Int}
    {fuel : Nat} (hb : isInBounds r c = true) (hg : getSq b r c = none) :
    Position.mk r c ∈ slide b color dr dc r c (fuel + 1) := by
  simp only [slide]
  rw [if_pos hb, hg]
  exact List.mem_cons_self _ _

theorem mem_slide_tail {b : Board} {color : PieceColor} {dr dc r c : Int}
    {fuel : Nat} {x : Position} (hb : isInBounds r c = true)
    (hg : getSq b r c = none)
    (h : x ∈ slide b color dr dc (r + dr) (c + dc) fuel) :
    x ∈ slide b color dr dc r c (fuel + 1) := by
  simp only [slide]
  rw [if_pos hb, hg]
  exact List.mem_cons_of_mem _ h

theorem color_eq_opp_of_ne {a c : PieceColor} (h : a ≠ c) : a = opp c := by
  cases a <;> cases c <;> simp [opp] at h ⊢

theorem ne_opp_self (c : PieceColor) : c ≠ opp c := by
  cases c <;> simp [opp]

theorem kingside_rook_color (b : Board) (pos : Position) (color : PieceColor)
    (hrow : pos.row = (if color = PieceColor.white then (7 : Int) else 0))
    (kRook : ChessPiece) (hk7 : getSq b pos.row 7 = some kRook)
    (hktype : kRook.type = PieceType.rook)
    (h6 : getSq b pos.row 6 = none)
    (hA6 : isSquareAttacked b (Position.mk pos.row 6) (opp color) = false) :
    kRook.color = color := by
  by_contra hne
  have hko : kRook.color = opp color := color_eq_opp_of_ne hne
  have hrb : 0 ≤ pos.row ∧ pos.row ≤ 7 := by
    cases color <;> simp at hrow <;> omega
  have hatt : isSquareAttacked b (Position.mk pos.row 6) (opp color) = true := by
    unfold isSquareAttacked
    rw [List.any_eq_true]
    refine ⟨(pos.row, 7), mem_squaresList hrb.1 hrb.2 (by norm_num) (by norm_num), ?_⟩
    dsimp only
    rw [hk7]
    dsimp only
    rw [if_pos hko]
    rw [List.any_eq_true]
    refine ⟨Position.mk pos.row 6, ?_, positionsEqual_iff.mpr rfl⟩
    unfold getRawMoves
    dsimp only
    rw [hk7]
    dsimp only
    simp only [hktype]
    unfold getRookMoves
    rw [List.mem_flatMap]
    refine ⟨(0, -1), by unfold rookDirs; simp, ?_⟩
    dsimp only
    have e1 : pos.row + (0 : Int) = pos.row := by ring
    have e2 : (7 : Int) + (-1 : Int) = 6 := by norm_num
    rw [e1, e2]
    exact mem_slide_head (by rw [isInBounds_iff]; omega) h6
  rw [hA6] at hatt
  cases hatt

theorem queenside_rook_color (b : Board) (pos : Position) (color : PieceColor)
    (hrow : pos.row = (if color = PieceColor.white then (7 : Int) else 0))
    (qRook : ChessPiece) (hk0 : getSq b pos.row 0 = some qRook)
    (hktype : qRook.type = PieceType.rook)
    (h1 : getSq b pos.row 1 = none) (h2 : getSq b pos.row 2 = none)
    (hA2 : isSquareAttacked b (Position.mk pos.row 2) (opp color) = false) :
    qRook.color = color := by
  by_contra hne
  have hko : qRook.color = opp color := color_eq_opp_of_ne hne
  have hrb : 0 ≤ pos.row ∧ pos.row ≤ 7 := by
    cases color <;> simp at hrow <;> omega
  have hatt : isSquareAttacked b (Position.mk pos.row 2) (opp color) = true := by
    unfold isSquareAttacked
    rw [List.any_eq_true]
    refine ⟨(pos.row, 0), mem_squaresList hrb.1 hrb.2 (by norm_num) (by norm_num), ?_⟩
    dsimp only
    rw [hk0]
    dsimp only
    rw [if_pos hko]
    rw [List.any_eq_true]
    refine ⟨Position.mk pos.row 2, ?_, positionsEqual_iff.mpr rfl⟩
    unfold getRawMoves
    dsimp only
    rw [hk0]
    dsimp only
    simp only [hktype]
    unfold getRookMoves
    rw [List.mem_flatMap]
    refine ⟨(0, 1), by unfold rookDirs; simp, ?_⟩
    dsimp only
    have e1 : pos.row + (0 : Int) = pos.row := by ring
    have e2 : (0 : Int) + (1 : Int) = 1 := by norm_num
    rw [e1, e2]
    apply mem_slide_tail (by rw [isInBounds_iff]; omega) h1
    have e3 : pos.row + (0 : Int) = pos.row := by ring
    have e4 : (1 : Int) + (1 : Int) = 2 := by norm_num
    rw [e3, e4]
    exact mem_slide_head (by rw [isInBounds_iff]; omega) h2
  rw [hA2] at hatt
  cases hatt

theorem isEpCapture_king {piece : ChessPiece} {toP : Position} {ept : Option Position}
    (hkg : piece.type = PieceType.king) : isEpCapture piece toP ept = false := by
  unfold isEpCapture
  rw [hkg]
  simp

theorem applyMove_eq_castle_kingside (b : Board) (fm toP : Position)
    (ept : Option Position) (piece : ChessPiece)
    (hp : getSq b fm.row fm.col = some piece)
    (hkg : piece.type = PieceType.king)
    (hdiff : toP.col - fm.col = 2)
    (rook : ChessPiece) (hr : getSq b fm.row 7 = some rook) :
    applyMove b fm toP ept = some
      { newBoard := setSq (setSq (setSq (setSq b fm.row 5
            (some { rook with hasMoved := true })) fm.row 7 none)
          toP.row toP.col (some { piece with hasMoved := true })) fm.row fm.col none
        capturedPiece := getSq b toP.row toP.col
        isPromotion := decide (piece.type = PieceType.pawn ∧ (toP.row = 0 ∨ toP.row = 7))
        isCastling := true
        isEnPassant := false } := by
  have hnep : isEpCapture piece toP ept = false := isEpCapture_king hkg
  unfold applyMove
  rw [hp]
  dsimp only
  rw [hnep]
  simp only [Bool.false_eq_true, if_false]
  rw [if_pos ⟨hkg, Or.inl hdiff⟩, hdiff]
  rw [if_pos (by norm_num : (2 : Int) > 0), if_pos (by norm_num : (2 : Int) > 0)]
  rw [hr]

theorem applyMove_eq_castle_queenside (b : Board) (fm toP : Position)
    (ept : Option Position) (piece : ChessPiece)
    (hp : getSq b fm.row fm.col = some piece)
    (hkg : piece.type = PieceType.king)
    (hdiff : toP.col - fm.col = -2)
    (rook : ChessPiece) (hr : getSq b fm.row 0 = some rook) :
    applyMove b fm toP ept = some
      { newBoard := setSq (setSq (setSq (setSq b fm.row 3
            (some { rook with hasMoved := true })) fm.row 0 none)
          toP.row toP.col (some { piece with hasMoved := true })) fm.row fm.col none
        capturedPiece := getSq b toP.row toP.col
        isPromotion := decide (piece.type = PieceType.pawn ∧ (toP.row = 0 ∨ toP.row = 7))
        isCastling := true
        isEnPassant := false } := by
  have hnep : isEpCapture piece toP ept = false := isEpCapture_king hkg
  unfold applyMove
  rw [hp]
  dsimp only
  rw [hnep]
  simp only [Bool.false_eq_true, if_false]
  rw [if_pos ⟨hkg, Or.inr hdiff⟩, hdiff]
  rw [if_neg (by norm_num : ¬((-2 : Int) > 0)), if_neg (by norm_num : ¬((-2 : Int) > 0))]
  rw [hr]

theorem kingOffsets_small :
    ∀ o ∈ kingOffsets, -1 ≤ o.1 ∧ o.1 ≤ 1 ∧ -1 ≤ o.2 ∧ o.2 ≤ 1 := by decide

theorem legal_king_double_elim (b : Board) (pos toP : Position)
    (ept : Option Position) (piece : ChessPiece)
    (hp : getSq b pos.row pos.col = some piece)
    (hkg : piece.type = PieceType.king)
    (hmem : toP ∈ getLegalMoves b pos ept)
    (hdiff : toP.col - pos.col = 2 ∨ toP.col - pos.col = -2) :
    toP ∈ getCastlingMoves b pos piece.color := by
  rcases ((mem_getLegalMoves_iff hp).mp hmem).1 with hraw | ⟨-, hc⟩
  · exfalso
    unfold getRawMoves at hraw
    rw [hp] at hraw
    dsimp only at hraw
    simp only [hkg] at hraw
    unfold getKingMovesRaw at hraw
    rw [mem_stepMoves] at hraw
    obtain ⟨o, ho, heq2, -, -⟩ := hraw
    have hcol : toP.col = pos.col + o.2 := congrArg Position.col heq2
    have := kingOffsets_small o ho
    omega
  · exact hc

-- ─── C9: the castling rook read in applyMove cannot fail ───

/-- C9: whenever a king move produced by `getLegalMoves` spans exactly two
columns, the corner square read by `applyMove` — (row,7) for kingside,
(row,0) for queenside — holds a never-moved rook, and `applyMove` succeeds
(its modelled non-null assertion does not fail). -/
theorem castling_rook_available (b : Board) (pos toP : Position)
    (ept : Option Position) (piece : ChessPiece)
    (hp : getSq b pos.row pos.col = some piece)
    (hkg : piece.type = PieceType.king)
    (hmem : toP ∈ getLegalMoves b pos ept)
    (hdiff : toP.col - pos.col = 2 ∨ toP.col - pos.col = -2) :
    (∃ rook, getSq b pos.row (if toP.col - pos.col > 0 then (7 : Int) else 0)
        = some rook ∧ rook.type = PieceType.rook ∧ rook.hasMoved = false) ∧
    applyMove b pos toP ept ≠ none := by
  have hc := legal_king_double_elim b pos toP ept piece hp hkg hmem hdiff
  obtain ⟨king, hking, -, hrow, hcol4, hside⟩ := mem_getCastlingMoves hc
  rcases hside with ⟨hx, kRook, hk7, hkt, hkm, -⟩ | ⟨hx, qRook, hk0, hqt, hqm, -⟩
  · have hd2 : toP.col - pos.col = 2 := by
      rw [hx]
      dsimp only
      omega
    rw [hd2]
    rw [if_pos (by norm_num : (2 : Int) > 0)]
    refine ⟨⟨kRook, hk7, hkt, hkm⟩, ?_⟩
    rw [applyMove_eq_castle_kingside b pos toP ept piece hp hkg hd2 kRook hk7]
    simp
  · have hd2 : toP.col - pos.col = -2 := by
      rw [hx]
      dsimp only
      omega
    rw [hd2]
    rw [if_neg (by norm_num : ¬((-2 : Int) > 0))]
    refine ⟨⟨qRook, hk0, hqt, hqm⟩, ?_⟩
    rw [applyMove_eq_castle_queenside b pos toP ept piece hp hkg hd2 qRook hk0]
    simp

/-- Witness for C9 at a concrete kingside castling. -/
theorem castling_rook_available_witness :
    getSq boardCastle 7 4 = some ⟨PieceType.king, PieceColor.white, false⟩ ∧
    Position.mk 7 6 ∈ getLegalMoves boardCastle (Position.mk 7 4) none ∧
    ((∃ rook, getSq boardCastle 7
        (if (6 : Int) - 4 > 0 then (7 : Int) else 0) = some rook ∧
        rook.type = PieceType.rook ∧ rook.hasMoved = false) ∧
      applyMove boardCastle (Position.mk 7 4) (Position.mk 7 6) none ≠ none) :=
  ⟨by decide, by decide,
    castling_rook_available boardCastle (Position.mk 7 4) (Position.mk 7 6) none
      ⟨PieceType.king, PieceColor.white, false⟩ (by decide) rfl (by decide)
      (Or.inl (by decide))⟩

-- ─── C1: legal moves never leave the mover's king in check ───

/-- C1: for every board, square and en-passant target, applying any move
produced by `getLegalMoves` yields a board on which the mover's color is not
in check. -/
theorem legal_moves_never_leave_check (b : Board) (pos toP : Position)
    (ept : Option Position) (piece : ChessPiece)
    (hp : getSq b pos.row pos.col = some piece)
    (hmem : toP ∈ getLegalMoves b pos ept) :
    ∃ res, applyMove b pos toP ept = some res ∧
      isInCheck res.newBoard piece.color = false := by
  obtain ⟨hcand, hsim⟩ := (mem_getLegalMoves_iff hp).mp hmem
  by_cases hcastle : piece.type = PieceType.king ∧
      (toP.col - pos.col = 2 ∨ toP.col - pos.col = -2)
  · -- castling
    obtain ⟨hkg, hd⟩ := hcastle
    have hc := legal_king_double_elim b pos toP ept piece hp hkg hmem hd
    obtain ⟨king, hking, -, hrow, hcol4, hside⟩ := mem_getCastlingMoves hc
    have hcr : pos.row = 0 ∨ pos.row = 7 := by
      cases hcolor : piece.color <;> rw [hcolor] at hrow <;> simp at hrow <;> omega
    have hrb : 0 ≤ pos.row ∧ pos.row ≤ 7 := by omega
    have hSdef : simBoard b pos toP piece ept
        = setSq (setSq b toP.row toP.col (some { piece with hasMoved := true }))
            pos.row pos.col none := by
      unfold simBoard
      rw [if_neg (by rw [isEpCapture_king hkg]; simp)]
    rw [hSdef] at hsim
    rcases hside with ⟨hx, kRook, hk7, hkt, hkm, h5, h6, hA4, hA5, hA6⟩ |
        ⟨hx, qRook, hk0, hqt, hqm, h1, h2, h3, hA4, hA3, hA2⟩
    · -- kingside
      subst hx
      have hd2 : (Position.mk pos.row 6).col - pos.col = 2 := by
        dsimp only
        omega
      refine ⟨_, applyMove_eq_castle_kingside b pos (Position.mk pos.row 6) ept
        piece hp hkg hd2 kRook hk7, ?_⟩
      dsimp only at hsim ⊢
      have hrookc : kRook.color = piece.color :=
        kingside_rook_color b pos piece.color hrow kRook hk7 hkt h6 hA6
      cases hAcheck : isInCheck (setSq (setSq (setSq (setSq b pos.row 5
          (some { kRook with hasMoved := true })) pos.row 7 none)
          pos.row 6 (some { piece with hasMoved := true }))
          pos.row pos.col none) piece.color with
      | false => rfl
      | true =>
        exfalso
        have heqAB : ∀ i j, ¬(i = pos.row ∧ j = 7) → ¬(i = pos.row ∧ j = 5) →
            getSq (setSq (setSq (setSq (setSq b pos.row 5
              (some { kRook with hasMoved := true })) pos.row 7 none)
              pos.row 6 (some { piece with hasMoved := true }))
              pos.row pos.col none) i j
            = getSq (setSq (setSq b pos.row 6
                (some { piece with hasMoved := true })) pos.row pos.col none) i j := by
          intro i j hn7 hn5
          simp only [getSq_setSq]
          split_ifs <;> first | rfl | omega | (simp only [true_and, and_true, not_true] at * <;> omega)
        have hcA : getSq (setSq (setSq (setSq (setSq b pos.row 5
            (some { kRook with hasMoved := true })) pos.row 7 none)
            pos.row 6 (some { piece with hasMoved := true }))
            pos.row pos.col none) pos.row 7 = none := by
          simp only [getSq_setSq]
          split_ifs <;> first | rfl | omega | (simp only [true_and, and_true, not_true] at * <;> omega)
        have hcS : ∃ p, getSq (setSq (setSq b pos.row 6
            (some { piece with hasMoved := true })) pos.row pos.col none)
            pos.row 7 = some p ∧ p.type ≠ PieceType.king := by
          refine ⟨kRook, ?_, by rw [hkt]; simp⟩
          simp only [getSq_setSq]
          split_ifs <;> first | exact hk7 | omega | (simp only [true_and, and_true, not_true] at * <;> omega)
        have hdA : ∃ p, getSq (setSq (setSq (setSq (setSq b pos.row 5
            (some { kRook with hasMoved := true })) pos.row 7 none)
            pos.row 6 (some { piece with hasMoved := true }))
            pos.row pos.col none) pos.row 5 = some p ∧ p.type ≠ PieceType.king ∧
            p.color ≠ opp piece.color := by
          refine ⟨{ kRook with hasMoved := true }, ?_, by dsimp only; rw [hkt]; simp, ?_⟩
          · simp only [getSq_setSq]
            split_ifs <;>
              first
              | rfl
              | omega
              | (simp only [true_and, and_true, not_true] at * <;> omega)
              | (rename_i hbb; exact absurd (isInBounds_iff.mpr (by omega)) hbb)
          · dsimp only
            rw [hrookc]
            exact ne_opp_self piece.color
        have hdS : getSq (setSq (setSq b pos.row 6
            (some { piece with hasMoved := true })) pos.row pos.col none)
            pos.row 5 = none := by
          simp only [getSq_setSq]
          split_ifs <;> first | exact h5 | omega | (simp only [true_and, and_true, not_true] at * <;> omega)
        have htrue := isInCheck_transfer _ _ piece.color pos.row 7 pos.row 5
          hcr (Or.inr rfl) heqAB hcA hcS hdA hdS hAcheck
        rw [htrue] at hsim
        cases hsim
    · -- queenside
      subst hx
      have hd2 : (Position.mk pos.row 2).col - pos.col = -2 := by
        dsimp only
        omega
      refine ⟨_, applyMove_eq_castle_queenside b pos (Position.mk pos.row 2) ept
        piece hp hkg hd2 qRook hk0, ?_⟩
      dsimp only at hsim ⊢
      have hrookc : qRook.color = piece.color :=
        queenside_rook_color b pos piece.color hrow qRook hk0 hqt h1 h2 hA2
      cases hAcheck : isInCheck (setSq (setSq (setSq (setSq b pos.row 3
          (some { qRook with hasMoved := true })) pos.row 0 none)
          pos.row 2 (some { piece with hasMoved := true }))
          pos.row pos.col none) piece.color with
      | false => rfl
      | true =>
        exfalso
        have heqAB : ∀ i j, ¬(i = pos.row ∧ j = 0) → ¬(i = pos.row ∧ j = 3) →
            getSq (setSq (setSq (setSq (setSq b pos.row 3
              (some { qRook with hasMoved := true })) pos.row 0 none)
              pos.row 2 (some { piece with hasMoved := true }))
              pos.row pos.col none) i j
            = getSq (setSq (setSq b pos.row 2
                (some { piece with hasMoved := true })) pos.row pos.col none) i j := by
          intro i j hn0 hn3
          simp only [getSq_setSq]
          split_ifs <;> first | rfl | omega | (simp only [true_and, and_true, not_true] at * <;> omega)
        have hcA : getSq (setSq (setSq (setSq (setSq b pos.row 3
            (some { qRook with hasMoved := true })) pos.row 0 none)
            pos.row 2 (some { piece with hasMoved := true }))
            pos.row pos.col none) pos.row 0 = none := by
          simp only [getSq_setSq]
          split_ifs <;> first | rfl | omega | (simp only [true_and, and_true, not_true] at * <;> omega)
        have hcS : ∃ p, getSq (setSq (setSq b pos.row 2
            (some { piece with hasMoved := true })) pos.row pos.col none)
            pos.row 0 = some p ∧ p.type ≠ PieceType.king := by
          refine ⟨qRook, ?_, by rw [hqt]; simp⟩
          simp only [getSq_setSq]
          split_ifs <;> first | exact hk0 | omega | (simp only [true_and, and_true, not_true] at * <;> omega)
        have hdA : ∃ p, getSq (setSq (setSq (setSq (setSq b pos.row 3
            (some { qRook with hasMoved := true })) pos.row 0 none)
            pos.row 2 (some { piece with hasMoved := true }))
            pos.row pos.col none) pos.row 3 = some p ∧ p.type ≠ PieceType.king ∧
            p.color ≠ opp piece.color := by
          refine ⟨{ qRook with hasMoved := true }, ?_, by dsimp only; rw [hqt]; simp, ?_⟩
          · simp only [getSq_setSq]
            split_ifs <;>
              first
              | rfl
              | omega
              | (simp only [true_and, and_true, not_true] at * <;> omega)
              | (rename_i hbb; exact absurd (isInBounds_iff.mpr (by omega)) hbb)
          · dsimp only
            rw [hrookc]
            exact ne_opp_self piece.color
        have hdS : getSq (setSq (setSq b pos.row 2
            (some { piece with hasMoved := true })) pos.row pos.col none)
            pos.row 3 = none := by
          simp only [getSq_setSq]
          split_ifs <;> first | exact h3 | omega | (simp only [true_and, and_true, not_true] at * <;> omega)
        have htrue := isInCheck_transfer _ _ piece.color pos.row 0 pos.row 3
          hcr (Or.inl rfl) heqAB hcA hcS hdA hdS hAcheck
        rw [htrue] at hsim
        cases hsim
  · -- not castling: the applied board is exactly the filter's scratch board
    by_cases hep : isEpCapture piece toP ept = true
    · have hpt : piece.type = PieceType.pawn := by
        by_contra hne
        unfold isEpCapture at hep
        rw [if_neg hne] at hep
        cases hep
      have hrowne : toP.row ≠ pos.row := by
        rcases hcand with hraw | ⟨hkg, -⟩
        · unfold getRawMoves at hraw
          rw [hp] at hraw
          dsimp only at hraw
          simp only [hpt] at hraw
          rw [mem_getPawnMoves] at hraw
          rcases hraw with hf | hd | hd
          · rcases mem_pawnForward.mp hf with ⟨-, -, hx | ⟨-, -, hx⟩⟩ <;>
              (rw [hx]; dsimp only; cases piece.color <;> simp [pawnDir] <;> omega)
          all_goals
            obtain ⟨-, hx, -⟩ := mem_pawnDiag.mp hd
            rw [hx]
            dsimp only
            cases piece.color <;> simp [pawnDir] <;> omega
        · rw [hpt] at hkg
          cases hkg
      refine ⟨_, applyMove_eq_noCastle_ep b pos toP ept piece hp hep hcastle, ?_⟩
      have hbe : setSq (setSq (setSq b pos.row toP.col none)
          toP.row toP.col (some { piece with hasMoved := true }))
          pos.row pos.col none
          = simBoard b pos toP piece ept := by
        unfold simBoard
        rw [if_pos hep]
        funext i j
        simp only [setSq]
        split_ifs <;> first | rfl | omega | (simp only [true_and, and_true, not_true] at * <;> omega)
      dsimp only
      rw [hbe]
      exact hsim
    · have hnep : isEpCapture piece toP ept = false := by
        cases h : isEpCapture piece toP ept
        · rfl
        · exact absurd h hep
      refine ⟨_, applyMove_eq_noCastle_noEp b pos toP ept piece hp hnep hcastle, ?_⟩
      have hbe : setSq (setSq b toP.row toP.col (some { piece with hasMoved := true }))
          pos.row pos.col none = simBoard b pos toP piece ept := by
        unfold simBoard
        rw [if_neg (by rw [hnep]; simp)]
      dsimp only
      rw [hbe]
      exact hsim

/-- Witness for C1: a king step on a small board. -/
theorem legal_moves_never_leave_check_witness :
    getSq boardCastle 7 4 = some ⟨PieceType.king, PieceColor.white, false⟩ ∧
    Position.mk 6 4 ∈ getLegalMoves boardCastle (Position.mk 7 4) none ∧
    (∃ res, applyMove boardCastle (Position.mk 7 4) (Position.mk 6 4) none
        = some res ∧
      isInCheck res.newBoard PieceColor.white = false) :=
  ⟨by decide, by decide,
    legal_moves_never_leave_check boardCastle (Position.mk 7 4) (Position.mk 6 4)
      none ⟨PieceType.king, PieceColor.white, false⟩ (by decide) (by decide)⟩
